import Mathlib

/-!
# Package `quaternion` (hweidner/quaternion), `quat.go`

A shallow embedding of the quaternion value type and of its operations.

* The operations are written once, over a scalar type `F` that only has to
  provide the arithmetic operators, the constants 0 and 1 and decidable
  equality.
* `F64` is a model of Go's `float64` (IEEE 754 binary64: round to nearest,
  ties to even, gradual underflow, overflow to an infinity, NaN). What the code
  computes on `float64` components is stated for `Quaternion F64`.
* Exact arithmetic (the real numbers, or any field or commutative ring) is the
  second instance: it shows what the formulas denote without rounding. A
  statement that only depends on which operations the code applies, in which
  order and behind which guards reads the same in both instances.
* The functions of Go's standard package `math` used by `quat.go`
  (`math.Sqrt`, `math.Exp`, `math.Log`, `math.Sin`, `math.Cos`, `math.Acos`)
  are not part of the repository. Each operation takes the ones it calls as
  parameters, named as in Go. In exact arithmetic the theorems pass
  `Real.sqrt`, `Real.exp`, `Real.log`, `Real.sin`, `Real.cos` and
  `Real.arccos`; on `F64` they pass the correctly rounded `F64.sqrt` and leave
  the other functions arbitrary, assuming of them only the values named in
  the statement.
* A quotient is defined only for a non-zero divisor (`fdiv`). The operations
  that divide (`Signum`, `Inv`, `Exp`, `Log`) therefore return an `Option`:
  `none` means the run evaluated a division by zero, `some b` that it
  returned `b` and every divisor it met was non-zero.
-/

namespace quaternion

/-- Quaternion stores a quaternion as a 4-tuple (`quat.go`, `type Quaternion`). -/
structure Quaternion (F : Type) where
  Qr : F
  Qi : F
  Qj : F
  Qk : F
deriving DecidableEq, Repr

variable {F : Type}

/-- The quotient `x / y` as the operations evaluate it: it has a value only when
the divisor is not zero. -/
def fdiv [HDiv F F F] [OfNat F 0] [DecidableEq F] (x y : F) : Option F :=
  if y = 0 then none else some (x / y)

/-- The fixed quaternion `q0`. -/
def q0 [OfNat F 0] : Quaternion F := ⟨0, 0, 0, 0⟩

/-- The fixed quaternion `q1`. -/
def q1 [OfNat F 0] [OfNat F 1] : Quaternion F := ⟨1, 0, 0, 0⟩

/-- The fixed quaternion `qi`. -/
def qi [OfNat F 0] [OfNat F 1] : Quaternion F := ⟨0, 1, 0, 0⟩

/-- The fixed quaternion `qj`. -/
def qj [OfNat F 0] [OfNat F 1] : Quaternion F := ⟨0, 0, 1, 0⟩

/-- The fixed quaternion `qk`. -/
def qk [OfNat F 0] [OfNat F 1] : Quaternion F := ⟨0, 0, 0, 1⟩

/-- Null returns the empty quaternion. -/
def Null [OfNat F 0] : Quaternion F := q0

/-- One returns the real quaternion which equals one. -/
def One [OfNat F 0] [OfNat F 1] : Quaternion F := q1

/-- I returns the quaternion which equals i. -/
def I [OfNat F 0] [OfNat F 1] : Quaternion F := qi

/-- J returns the quaternion which equals j. -/
def J [OfNat F 0] [OfNat F 1] : Quaternion F := qj

/-- K returns the quaternion which equals k. -/
def K [OfNat F 0] [OfNat F 1] : Quaternion F := qk

/-- FromFloat64 converts a scalar into a real quaternion: only `Qr` of the
zero-initialised result is assigned. -/
def FromFloat64 [OfNat F 0] (a : F) : Quaternion F := ⟨a, 0, 0, 0⟩

/-- Conj calculates the conjugation of a quaternion. -/
def Quaternion.Conj [Neg F] (a : Quaternion F) : Quaternion F :=
  ⟨a.Qr, -a.Qi, -a.Qj, -a.Qk⟩

/-- Norm calculates the (quadratic) norm of a quaternion. -/
def Quaternion.Norm [HAdd F F F] [HMul F F F] (a : Quaternion F) : F :=
  a.Qr * a.Qr + a.Qi * a.Qi + a.Qj * a.Qj + a.Qk * a.Qk

/-- Abs calculates the absolute value of a quaternion. -/
def Quaternion.Abs [HAdd F F F] [HMul F F F] (Sqrt : F → F) (a : Quaternion F) : F :=
  Sqrt (a.Qr * a.Qr + a.Qi * a.Qi + a.Qj * a.Qj + a.Qk * a.Qk)

/-- Real returns the real part of a quaternion as a scalar. -/
def Quaternion.Real (a : Quaternion F) : F := a.Qr

/-- Img returns the imaginary (vector) part of a quaternion: `Qr` of the
zero-initialised result is left untouched. -/
def Quaternion.Img [OfNat F 0] (a : Quaternion F) : Quaternion F :=
  ⟨0, a.Qi, a.Qj, a.Qk⟩

/-- Signum returns the signum of a quaternion. A zero `norm` returns the
zero-initialised result before anything is divided. -/
def Quaternion.Signum [HAdd F F F] [HMul F F F] [HDiv F F F] [OfNat F 0] [DecidableEq F]
    (Sqrt : F → F) (a : Quaternion F) :
    Option (Quaternion F) :=
  let norm := a.Qr * a.Qr + a.Qi * a.Qi + a.Qj * a.Qj + a.Qk * a.Qk
  if norm = 0 then some ⟨0, 0, 0, 0⟩
  else
    let abs := Sqrt norm
    (fdiv a.Qr abs).bind fun br =>
    (fdiv a.Qi abs).bind fun bi =>
    (fdiv a.Qj abs).bind fun bj =>
    (fdiv a.Qk abs).bind fun bk =>
    some ⟨br, bi, bj, bk⟩

/-- Inv calculates the inverse of a quaternion. A zero `norm` returns the
zero-initialised result before anything is divided. -/
def Quaternion.Inv [HAdd F F F] [HMul F F F] [Neg F] [HDiv F F F] [OfNat F 0] [DecidableEq F]
    (a : Quaternion F) : Option (Quaternion F) :=
  let norm := a.Qr * a.Qr + a.Qi * a.Qi + a.Qj * a.Qj + a.Qk * a.Qk
  if norm = 0 then some ⟨0, 0, 0, 0⟩
  else
    (fdiv a.Qr norm).bind fun br =>
    (fdiv (-a.Qi) norm).bind fun bi =>
    (fdiv (-a.Qj) norm).bind fun bj =>
    (fdiv (-a.Qk) norm).bind fun bk =>
    some ⟨br, bi, bj, bk⟩

/-- Exp calculates the exponentiation of a quaternion. -/
def Quaternion.Exp [HAdd F F F] [HMul F F F] [HDiv F F F] [OfNat F 0] [DecidableEq F]
    (Exp Sqrt Sin Cos : F → F) (a : Quaternion F) :
    Option (Quaternion F) :=
  let exp := Exp a.Qr
  let unit := Sqrt (a.Qi * a.Qi + a.Qj * a.Qj + a.Qk * a.Qk)
  if unit = 0 then some ⟨exp, 0, 0, 0⟩
  else
    let real := Cos unit
    (fdiv (exp * Sin unit) unit).bind fun imgfact =>
    some ⟨exp * real, imgfact * a.Qi, imgfact * a.Qj, imgfact * a.Qk⟩

/-- Log calculates the natural logarithm of a quaternion. -/
def Quaternion.Log [HAdd F F F] [HMul F F F] [HDiv F F F] [OfNat F 0] [DecidableEq F]
    (Log Sqrt Acos : F → F) (a : Quaternion F) :
    Option (Quaternion F) :=
  let imgnorm := a.Qi * a.Qi + a.Qj * a.Qj + a.Qk * a.Qk
  let abs := Sqrt (a.Qr * a.Qr + imgnorm)
  let unit := Sqrt imgnorm
  if unit = 0 then some ⟨Log abs, 0, 0, 0⟩
  else
    (fdiv a.Qr abs).bind fun cosarg =>
    (fdiv (Acos cosarg) unit).bind fun imgfact =>
    some ⟨Log abs, imgfact * a.Qi, imgfact * a.Qj, imgfact * a.Qk⟩

/-- Add calculates the sum of two quaternions. -/
def Quaternion.Add [HAdd F F F] (a b : Quaternion F) : Quaternion F :=
  ⟨a.Qr + b.Qr, a.Qi + b.Qi, a.Qj + b.Qj, a.Qk + b.Qk⟩

/-- Sub calculates the difference of two quaternions. -/
def Quaternion.Sub [HSub F F F] (a b : Quaternion F) : Quaternion F :=
  ⟨a.Qr - b.Qr, a.Qi - b.Qi, a.Qj - b.Qj, a.Qk - b.Qk⟩

/-- Mult calculates the product of two quaternions. -/
def Quaternion.Mult [HAdd F F F] [HSub F F F] [HMul F F F] (a b : Quaternion F) : Quaternion F :=
  ⟨a.Qr * b.Qr - a.Qi * b.Qi - a.Qj * b.Qj - a.Qk * b.Qk,
   a.Qr * b.Qi + a.Qi * b.Qr + a.Qj * b.Qk - a.Qk * b.Qj,
   a.Qr * b.Qj - a.Qi * b.Qk + a.Qj * b.Qr + a.Qk * b.Qi,
   a.Qr * b.Qk + a.Qi * b.Qj - a.Qj * b.Qi + a.Qk * b.Qr⟩

/-- ScalarProd calculates the scalar product of two quaternions. -/
def Quaternion.ScalarProd [HAdd F F F] [HMul F F F] (a b : Quaternion F) : F :=
  a.Qr * b.Qr + a.Qi * b.Qi + a.Qj * b.Qj + a.Qk * b.Qk

/-- CrossProd calculates the cross product of two quaternions. -/
def Quaternion.CrossProd [HAdd F F F] [HSub F F F] [HMul F F F] [Neg F] [OfNat F 0]
    (a b : Quaternion F) : Quaternion F :=
  ⟨0, a.Qj * b.Qk - a.Qk * b.Qj, -a.Qi * b.Qk + a.Qk * b.Qi, a.Qi * b.Qj - a.Qj * b.Qi⟩

/-- The same 4-tuple read as an element of Mathlib's Hamilton quaternions. -/
def toHamilton [Field F] (a : Quaternion F) : QuaternionAlgebra F (-1) (-1) :=
  ⟨a.Qr, a.Qi, a.Qj, a.Qk⟩

/-! ## The scalar type `float64`

A model of IEEE 754 binary64 arithmetic as Go evaluates `+`, `-`, `*`, `/`,
unary `-` and `math.Sqrt` on `float64`: the exact result is rounded to the
nearest float64 value, ties to even, with gradual underflow and overflow to an
infinity. Every operation is rounded on its own (no fused multiply-add). The
two zeros are identified, as Go's `==` does; `=` on `F64` differs from Go's
`==` only in that `nan = nan`. -/

/-- A `float64` value: a finite value (given by the rational number it
denotes), an infinity with its sign, or NaN. -/
inductive F64
  | fin (q : ℚ)
  | inf (neg : Bool)
  | nan
deriving DecidableEq

/-- The power `2^e` as a rational number. -/
def F64.pow2 (e : ℤ) : ℚ :=
  if 0 ≤ e then ((2 ^ e.toNat : ℕ) : ℚ) else 1 / ((2 ^ (-e).toNat : ℕ) : ℚ)

/-- Binary logarithm of a positive natural number, rounded down; the first
argument bounds the number of halvings. -/
def F64.log2Fuel : ℕ → ℕ → ℕ
  | 0, _ => 0
  | f + 1, n => if n < 2 then 0 else F64.log2Fuel f (n / 2) + 1

/-- Binary logarithm of a positive natural number, rounded down. -/
def F64.log2 (n : ℕ) : ℕ := F64.log2Fuel n n

/-- Binary logarithm of a positive rational number, rounded down. -/
def F64.ilog2 (q : ℚ) : ℤ :=
  let c : ℤ := (F64.log2 q.num.natAbs : ℤ) - (F64.log2 q.den : ℤ)
  if F64.pow2 c ≤ q then c else c - 1

/-- The integer nearest to a non-negative rational, ties to the even one. -/
def F64.roundEven (t : ℚ) : ℤ :=
  let n : ℤ := t.num / (t.den : ℤ)
  let r : ℚ := t - (n : ℚ)
  if r < 1 / 2 then n else if 1 / 2 < r then n + 1 else if n % 2 = 0 then n else n + 1

/-- A positive rational rounded to 53 significant bits, or to a multiple of
`2^-1074` below `2^-1022` (subnormal range), ties to even. -/
def F64.roundMag (q : ℚ) : ℚ :=
  let e := max (F64.ilog2 q) (-1022)
  let ulp := F64.pow2 (e - 52)
  (F64.roundEven (q / ulp) : ℚ) * ulp

/-- The float64 value nearest to a rational number: what an arithmetic
operation returns for the exact result `q`, and what Go makes of a constant. -/
def F64.ofRat (q : ℚ) : F64 :=
  if q = 0 then F64.fin 0
  else if F64.pow2 1024 ≤ F64.roundMag |q| then F64.inf (decide (q < 0))
  else F64.fin (if q < 0 then -F64.roundMag |q| else F64.roundMag |q|)

/-- Integer square root, rounded down, found bit by bit from bit `k - 1` on. -/
def F64.isqrtAux : ℕ → ℕ → ℕ → ℕ
  | 0, _, r => r
  | k + 1, n, r =>
    if (r + 2 ^ k) * (r + 2 ^ k) ≤ n then F64.isqrtAux k n (r + 2 ^ k)
    else F64.isqrtAux k n r

/-- Integer square root, rounded down. -/
def F64.isqrt (n : ℕ) : ℕ := F64.isqrtAux (F64.log2 n / 2 + 1) n 0

/-- Unary minus. -/
def F64.neg : F64 → F64
  | F64.fin q => F64.fin (-q)
  | F64.inf s => F64.inf (!s)
  | F64.nan => F64.nan

/-- Addition. -/
def F64.add : F64 → F64 → F64
  | F64.fin x, F64.fin y => F64.ofRat (x + y)
  | F64.fin _, F64.inf s => F64.inf s
  | F64.inf s, F64.fin _ => F64.inf s
  | F64.inf s, F64.inf t => if s = t then F64.inf s else F64.nan
  | _, _ => F64.nan

/-- Multiplication. -/
def F64.mul : F64 → F64 → F64
  | F64.fin x, F64.fin y => F64.ofRat (x * y)
  | F64.fin x, F64.inf s => if x = 0 then F64.nan else F64.inf (xor s (decide (x < 0)))
  | F64.inf s, F64.fin y => if y = 0 then F64.nan else F64.inf (xor s (decide (y < 0)))
  | F64.inf s, F64.inf t => F64.inf (xor s t)
  | _, _ => F64.nan

/-- Division. A zero divisor counts as `+0`; the operations of the package
never divide by it (`fdiv`). -/
def F64.div : F64 → F64 → F64
  | F64.fin x, F64.fin y =>
    if y = 0 then (if x = 0 then F64.nan else F64.inf (decide (x < 0)))
    else F64.ofRat (x / y)
  | F64.fin _, F64.inf _ => F64.fin 0
  | F64.inf s, F64.fin y => F64.inf (xor s (decide (y < 0)))
  | _, _ => F64.nan

/-- The correctly rounded square root `math.Sqrt`. For a float64 value `x > 0`
the integer `r` is the square root of `x * 2^1200` rounded down and has more
than 53 bits, so `r`, or `r + 1/2` when the root is not exact, rounds as the
root itself does. -/
def F64.sqrt : F64 → F64
  | F64.fin x =>
    if x < 0 then F64.nan
    else
      let t : ℚ := x * F64.pow2 1200
      let m : ℕ := (t.num / (t.den : ℤ)).toNat
      let r : ℕ := F64.isqrt m
      F64.ofRat ((if r * r = m ∧ t.den = 1 then (r : ℚ) else (r : ℚ) + 1 / 2) / F64.pow2 600)
  | F64.inf false => F64.inf false
  | F64.inf true => F64.nan
  | F64.nan => F64.nan

instance : OfNat F64 0 := ⟨F64.fin 0⟩

instance : OfNat F64 1 := ⟨F64.fin 1⟩

instance : Neg F64 := ⟨F64.neg⟩

instance : Add F64 := ⟨F64.add⟩

instance : Sub F64 := ⟨fun x y => F64.add x (F64.neg y)⟩

instance : Mul F64 := ⟨F64.mul⟩

instance : Div F64 := ⟨F64.div⟩

/-- The float64 value of an integer, as the conversion `float64(z)` gives it. -/
def F64.ofInt (z : ℤ) : F64 := F64.ofRat (z : ℚ)

/-- The float64 value `x` is the integer `z`, and `z` is at most `M` in
magnitude. -/
def F64.IsInt (x : F64) (z M : ℤ) : Prop := x = F64.fin (z : ℚ) ∧ |z| ≤ M

/-- The value is zero, a positive float64 value, `+Inf` or NaN: what a square,
a sum of squares and `math.Sqrt` return. -/
def F64.NonNeg : F64 → Prop
  | F64.fin q => q = 0 ∨ F64.pow2 (-1074) ≤ q
  | F64.inf s => s = false
  | F64.nan => True

/-- A quaternion with integer components, converted to `float64` components. -/
def toF64 (a : Quaternion ℤ) : Quaternion F64 :=
  ⟨F64.ofInt a.Qr, F64.ofInt a.Qi, F64.ofInt a.Qj, F64.ofInt a.Qk⟩

/-- Every component of the integer quaternion is at most `M` in magnitude. -/
def Quaternion.BoundedBy (a : Quaternion ℤ) (M : ℤ) : Prop :=
  |a.Qr| ≤ M ∧ |a.Qi| ≤ M ∧ |a.Qj| ≤ M ∧ |a.Qk| ≤ M

/-- The float64 quaternion `x` has the integer components of `a`, each at most
`M` in magnitude. -/
def Quaternion.IsIntQ (x : Quaternion F64) (a : Quaternion ℤ) (M : ℤ) : Prop :=
  F64.IsInt x.Qr a.Qr M ∧ F64.IsInt x.Qi a.Qi M ∧ F64.IsInt x.Qj a.Qj M ∧
    F64.IsInt x.Qk a.Qk M

/-! ## Basic facts -/

theorem fdiv_of_ne_zero [Field F] [DecidableEq F] (x : F) {y : F} (hy : y ≠ 0) :
    fdiv x y = some (x / y) := by
  simp [fdiv, hy]

theorem fdiv_zero_divisor [Field F] [DecidableEq F] (x : F) : fdiv x 0 = none := by
  simp [fdiv]

/-- Over the reals the four squares sum to zero only for the zero quaternion. -/
theorem sq_sum_eq_zero_iff (a : Quaternion ℝ) :
    a.Qr * a.Qr + a.Qi * a.Qi + a.Qj * a.Qj + a.Qk * a.Qk = 0 ↔ a = Null := by
  constructor
  · intro h
    have h0 := mul_self_nonneg a.Qr
    have h1 := mul_self_nonneg a.Qi
    have h2 := mul_self_nonneg a.Qj
    have h3 := mul_self_nonneg a.Qk
    have hr : a.Qr = 0 := mul_self_eq_zero.1 (by linarith)
    have hi : a.Qi = 0 := mul_self_eq_zero.1 (by linarith)
    have hj : a.Qj = 0 := mul_self_eq_zero.1 (by linarith)
    have hk : a.Qk = 0 := mul_self_eq_zero.1 (by linarith)
    cases a
    simp_all [Null, q0]
  · rintro rfl
    simp [Null, q0]

theorem sq_sum_pos {a : Quaternion ℝ} (h : a ≠ Null) :
    0 < a.Qr * a.Qr + a.Qi * a.Qi + a.Qj * a.Qj + a.Qk * a.Qk := by
  have hne := mt (sq_sum_eq_zero_iff a).1 h
  have h0 := mul_self_nonneg a.Qr
  have h1 := mul_self_nonneg a.Qi
  have h2 := mul_self_nonneg a.Qj
  have h3 := mul_self_nonneg a.Qk
  have hge : 0 ≤ a.Qr * a.Qr + a.Qi * a.Qi + a.Qj * a.Qj + a.Qk * a.Qk := by linarith
  exact lt_of_le_of_ne hge (Ne.symm hne)

/-- What `Inv` returns away from the zero quaternion. -/
theorem inv_of_ne_null {a : Quaternion ℝ} (h : a ≠ Null) :
    a.Inv = some ⟨a.Qr / a.Norm, -a.Qi / a.Norm, -a.Qj / a.Norm, -a.Qk / a.Norm⟩ := by
  have hn : a.Qr * a.Qr + a.Qi * a.Qi + a.Qj * a.Qj + a.Qk * a.Qk ≠ 0 := (sq_sum_pos h).ne'
  simp [Quaternion.Inv, Quaternion.Norm, fdiv, hn]

/-- What `Signum` returns away from the zero quaternion. -/
theorem signum_of_ne_null {a : Quaternion ℝ} (h : a ≠ Null) :
    a.Signum Real.sqrt = some ⟨a.Qr / Real.sqrt a.Norm, a.Qi / Real.sqrt a.Norm,
      a.Qj / Real.sqrt a.Norm, a.Qk / Real.sqrt a.Norm⟩ := by
  have hpos := sq_sum_pos h
  have hn : a.Qr * a.Qr + a.Qi * a.Qi + a.Qj * a.Qj + a.Qk * a.Qk ≠ 0 := hpos.ne'
  have hs : Real.sqrt (a.Qr * a.Qr + a.Qi * a.Qi + a.Qj * a.Qj + a.Qk * a.Qk) ≠ 0 :=
    (Real.sqrt_pos.2 hpos).ne'
  simp [Quaternion.Signum, Quaternion.Norm, fdiv, hn, hs]

/-! ## Inverse and signum -/

/-- In exact real arithmetic: for every quaternion `a` other than the zero
quaternion, `a.Inv()` returns without dividing by zero and its result `b` is a
two-sided inverse, `a.Mult(b)` and `b.Mult(a)` both equal `One() = (1,0,0,0)`. -/
theorem inv_mult_one (a : Quaternion ℝ) (h : a ≠ Null) :
    ∃ b, a.Inv = some b ∧ a.Mult b = One ∧ b.Mult a = One ∧ (One : Quaternion ℝ) = ⟨1, 0, 0, 0⟩ := by
  have hn : a.Qr * a.Qr + a.Qi * a.Qi + a.Qj * a.Qj + a.Qk * a.Qk ≠ 0 := (sq_sum_pos h).ne'
  refine ⟨_, inv_of_ne_null h, ?_, ?_, rfl⟩
  · simp only [Quaternion.Mult, Quaternion.Norm, One, q1, Quaternion.mk.injEq]
    refine ⟨?_, ?_, ?_, ?_⟩ <;> field_simp <;> ring
  · simp only [Quaternion.Mult, Quaternion.Norm, One, q1, Quaternion.mk.injEq]
    refine ⟨?_, ?_, ?_, ?_⟩ <;> field_simp <;> ring

/-- In exact real arithmetic: for every quaternion `q` other than the zero
quaternion, `q.Signum()` returns without dividing by zero and the `Norm()` of
its result is 1. -/
theorem signum_norm_one (q : Quaternion ℝ) (h : q ≠ Null) :
    ∃ s, q.Signum Real.sqrt = some s ∧ s.Norm = 1 := by
  have hpos := sq_sum_pos h
  have hs : Real.sqrt q.Norm ≠ 0 := (Real.sqrt_pos.2 hpos).ne'
  have hsq : Real.sqrt q.Norm * Real.sqrt q.Norm = q.Norm := Real.mul_self_sqrt hpos.le
  refine ⟨_, signum_of_ne_null h, ?_⟩
  simp only [Quaternion.Norm] at hs hsq ⊢
  field_simp

/-- In exact real arithmetic `z = (-2,1,2,-4)` has `Signum` `(-2/5,1/5,2/5,-4/5)`. -/
theorem signum_test_value :
    (⟨-2, 1, 2, -4⟩ : Quaternion ℝ).Signum Real.sqrt = some ⟨-2/5, 1/5, 2/5, -4/5⟩ := by
  have h25 : Real.sqrt 25 = 5 := by
    rw [show (25 : ℝ) = 5 * 5 by norm_num]
    exact Real.sqrt_mul_self (by norm_num)
  rw [signum_of_ne_null (by simp [Null, q0])]
  norm_num [Quaternion.Norm, h25]

/-- C3: whenever the sum of the squares of the four components of `a` is exactly
zero, `a.Signum()` and `a.Inv()` both return the zero quaternion `(0,0,0,0)`, and
they return it without evaluating any division (whatever `math.Sqrt` is). -/
theorem signum_inv_of_norm_zero [Field F] [DecidableEq F] (Sqrt : F → F) (a : Quaternion F)
    (h : a.Norm = 0) :
    a.Signum Sqrt = some Null ∧ a.Inv = some Null ∧ (Null : Quaternion F) = ⟨0, 0, 0, 0⟩ := by
  simp only [Quaternion.Norm] at h
  simp [Quaternion.Signum, Quaternion.Inv, h, Null, q0]

theorem signum_inv_of_norm_zero_witness :
    (Null : Quaternion ℝ).Norm = 0 ∧ (Null : Quaternion ℝ).Signum Real.sqrt = some Null ∧
      (Null : Quaternion ℝ).Inv = some Null ∧ (Null : Quaternion ℝ) = ⟨0, 0, 0, 0⟩ :=
  ⟨by simp [Quaternion.Norm, Null, q0],
    signum_inv_of_norm_zero Real.sqrt Null (by simp [Quaternion.Norm, Null, q0])⟩

/-! ## Product, conjugate, real and imaginary part -/

/-- C7: for all quaternions `a` and `b`, the components of `a.Mult(b)` are those
of the Hamilton product, `r = ar*br - ai*bi - aj*bj - ak*bk`,
`i = ar*bi + ai*br + aj*bk - ak*bj`, `j = ar*bj - ai*bk + aj*br + ak*bi`,
`k = ar*bk + ai*bj - aj*bi + ak*br`; read as Hamilton quaternions of Mathlib,
`a.Mult(b)` is the product there; and `x = (1,2,-0.5,-1)`, `y = (-3,4,0,2)`
give `x.Mult(y) = (-9,-3,-6.5,7)`. -/
theorem mult_is_hamilton_product :
    (∀ a b : Quaternion ℝ,
      (a.Mult b).Qr = a.Qr * b.Qr - a.Qi * b.Qi - a.Qj * b.Qj - a.Qk * b.Qk ∧
      (a.Mult b).Qi = a.Qr * b.Qi + a.Qi * b.Qr + a.Qj * b.Qk - a.Qk * b.Qj ∧
      (a.Mult b).Qj = a.Qr * b.Qj - a.Qi * b.Qk + a.Qj * b.Qr + a.Qk * b.Qi ∧
      (a.Mult b).Qk = a.Qr * b.Qk + a.Qi * b.Qj - a.Qj * b.Qi + a.Qk * b.Qr ∧
      toHamilton (a.Mult b) = toHamilton a * toHamilton b) ∧
    (⟨1, 2, -1/2, -1⟩ : Quaternion ℝ).Mult ⟨-3, 4, 0, 2⟩ = ⟨-9, -3, -13/2, 7⟩ := by
  refine ⟨fun a b => ⟨rfl, rfl, rfl, rfl, ?_⟩, ?_⟩
  · ext <;> simp [toHamilton, Quaternion.Mult] <;> ring
  · simp only [Quaternion.Mult, Quaternion.mk.injEq]
    norm_num

/-- C8: `Mult` is not commutative: `I().Mult(J())` is `K()`, `J().Mult(I())` is
`(0,0,0,-1)`, the two differ, so there are `a` and `b` with `a.Mult(b)`
different from `b.Mult(a)`. -/
theorem mult_not_commutative :
    (I : Quaternion ℝ).Mult J = K ∧ (J : Quaternion ℝ).Mult I = ⟨0, 0, 0, -1⟩ ∧
      (I : Quaternion ℝ).Mult J ≠ J.Mult I ∧
      ∃ a b : Quaternion ℝ, a.Mult b ≠ b.Mult a := by
  have hne : (I : Quaternion ℝ).Mult J ≠ J.Mult I := by
    simp only [Quaternion.Mult, I, J, qi, qj, ne_eq, Quaternion.mk.injEq]
    norm_num
  refine ⟨?_, ?_, hne, I, J, hne⟩
  · simp [Quaternion.Mult, I, J, K, qi, qj, qk]
  · simp [Quaternion.Mult, I, J, qi, qj]

/-- C9: for every quaternion `q`, `q.Add(q.Conj())` equals
`FromFloat64(2*q.Real())`, which is the real quaternion `(2*Qr, 0, 0, 0)`. -/
theorem add_conj_eq_two_real [Field F] (q : Quaternion F) :
    q.Add q.Conj = FromFloat64 (2 * q.Real) ∧ FromFloat64 (2 * q.Real) = ⟨2 * q.Qr, 0, 0, 0⟩ := by
  refine ⟨?_, rfl⟩
  simp only [Quaternion.Add, Quaternion.Conj, FromFloat64, Quaternion.Real, Quaternion.mk.injEq]
  refine ⟨by ring, by ring, by ring, by ring⟩

/-- C10: for every quaternion `q`, `q.Sub(FromFloat64(q.Real())).Sub(q.Img())`
equals `Null() = (0,0,0,0)`. -/
theorem sub_real_sub_img_eq_null [Field F] (q : Quaternion F) :
    (q.Sub (FromFloat64 q.Real)).Sub q.Img = Null ∧ (Null : Quaternion F) = ⟨0, 0, 0, 0⟩ := by
  refine ⟨?_, rfl⟩
  simp [Quaternion.Sub, Quaternion.Img, FromFloat64, Quaternion.Real, Null, q0]

/-! ## Exponential and logarithm -/

/-- Over the reals the three imaginary squares sum to zero only when the
imaginary part vanishes. -/
theorem img_sq_sum_eq_zero {a : Quaternion ℝ}
    (h : a.Qi * a.Qi + a.Qj * a.Qj + a.Qk * a.Qk = 0) : a.Qi = 0 ∧ a.Qj = 0 ∧ a.Qk = 0 := by
  have h1 := mul_self_nonneg a.Qi
  have h2 := mul_self_nonneg a.Qj
  have h3 := mul_self_nonneg a.Qk
  exact ⟨mul_self_eq_zero.1 (by linarith), mul_self_eq_zero.1 (by linarith),
    mul_self_eq_zero.1 (by linarith)⟩

theorem img_sq_sum_nonneg (a : Quaternion ℝ) :
    0 ≤ a.Qi * a.Qi + a.Qj * a.Qj + a.Qk * a.Qk := by
  have h1 := mul_self_nonneg a.Qi
  have h2 := mul_self_nonneg a.Qj
  have h3 := mul_self_nonneg a.Qk
  linarith

theorem img_sq_sum_pos {a : Quaternion ℝ} (h : a.Img ≠ Null) :
    0 < a.Qi * a.Qi + a.Qj * a.Qj + a.Qk * a.Qk := by
  refine lt_of_le_of_ne (img_sq_sum_nonneg a) (fun h0 => h ?_)
  obtain ⟨hi, hj, hk⟩ := img_sq_sum_eq_zero h0.symm
  simp [Quaternion.Img, Null, q0, hi, hj, hk]

/-- The branch of `Exp` taken when `unit` is zero. -/
theorem exp_of_unit_zero (a : Quaternion ℝ)
    (hU : Real.sqrt (a.Qi * a.Qi + a.Qj * a.Qj + a.Qk * a.Qk) = 0) :
    a.Exp Real.exp Real.sqrt Real.sin Real.cos = some ⟨Real.exp a.Qr, 0, 0, 0⟩ := by
  simp [Quaternion.Exp, hU]

/-- The branch of `Exp` taken when `unit` is not zero, with `unit` named `U`. -/
theorem exp_of_unit_ne_zero (a : Quaternion ℝ) {U : ℝ}
    (hU : Real.sqrt (a.Qi * a.Qi + a.Qj * a.Qj + a.Qk * a.Qk) = U) (hU0 : U ≠ 0) :
    a.Exp Real.exp Real.sqrt Real.sin Real.cos =
      some ⟨Real.exp a.Qr * Real.cos U, Real.exp a.Qr * Real.sin U / U * a.Qi,
        Real.exp a.Qr * Real.sin U / U * a.Qj, Real.exp a.Qr * Real.sin U / U * a.Qk⟩ := by
  simp [Quaternion.Exp, fdiv, hU, hU0]

/-- The branch of `Log` taken when `unit` is zero, with `abs` named `A`. -/
theorem log_of_unit_zero (a : Quaternion ℝ) {M A : ℝ}
    (hM : a.Qi * a.Qi + a.Qj * a.Qj + a.Qk * a.Qk = M)
    (hA : Real.sqrt (a.Qr * a.Qr + M) = A) (hU : Real.sqrt M = 0) :
    a.Log Real.log Real.sqrt Real.arccos = some ⟨Real.log A, 0, 0, 0⟩ := by
  simp [Quaternion.Log, hM, hA, hU]

/-- The branch of `Log` taken when `unit` is not zero, with `imgnorm`, `abs` and
`unit` named `M`, `A` and `U`; `abs` is not zero either. -/
theorem log_of_unit_ne_zero (a : Quaternion ℝ) {M A U : ℝ}
    (hM : a.Qi * a.Qi + a.Qj * a.Qj + a.Qk * a.Qk = M)
    (hA : Real.sqrt (a.Qr * a.Qr + M) = A) (hU : Real.sqrt M = U)
    (hU0 : U ≠ 0) (hA0 : A ≠ 0) :
    a.Log Real.log Real.sqrt Real.arccos =
      some ⟨Real.log A, Real.arccos (a.Qr / A) / U * a.Qi,
        Real.arccos (a.Qr / A) / U * a.Qj, Real.arccos (a.Qr / A) / U * a.Qk⟩ := by
  simp [Quaternion.Log, fdiv, hM, hA, hU, hU0, hA0]

/-- In exact real arithmetic: for every quaternion `a` whose imaginary
magnitude `sqrt(Qi^2+Qj^2+Qk^2)` is strictly less than pi (zero included),
`a.Exp()` returns, `Log()` of its result returns, no division by zero is met,
and the final result is `a`. -/
theorem exp_log_roundtrip (a : Quaternion ℝ)
    (h : Real.sqrt (a.Qi * a.Qi + a.Qj * a.Qj + a.Qk * a.Qk) < Real.pi) :
    (a.Exp Real.exp Real.sqrt Real.sin Real.cos).bind
      (Quaternion.Log Real.log Real.sqrt Real.arccos) = some a := by
  have hN := img_sq_sum_nonneg a
  have he : 0 < Real.exp a.Qr := Real.exp_pos _
  by_cases hu : Real.sqrt (a.Qi * a.Qi + a.Qj * a.Qj + a.Qk * a.Qk) = 0
  · obtain ⟨hi, hj, hk⟩ := img_sq_sum_eq_zero ((Real.sqrt_eq_zero hN).1 hu)
    rw [exp_of_unit_zero a hu, Option.some_bind]
    rw [log_of_unit_zero (M := 0) (A := Real.exp a.Qr) _ (by simp) (by
      simp only [add_zero]
      exact Real.sqrt_mul_self he.le) (by simp)]
    cases a
    simp_all
  · have hupos : 0 < Real.sqrt (a.Qi * a.Qi + a.Qj * a.Qj + a.Qk * a.Qk) :=
      lt_of_le_of_ne (Real.sqrt_nonneg _) (Ne.symm hu)
    have huu := Real.mul_self_sqrt hN
    have hs : 0 < Real.sin (Real.sqrt (a.Qi * a.Qi + a.Qj * a.Qj + a.Qk * a.Qk)) :=
      Real.sin_pos_of_pos_of_lt_pi hupos h
    have hsc := Real.sin_sq_add_cos_sq (Real.sqrt (a.Qi * a.Qi + a.Qj * a.Qj + a.Qk * a.Qk))
    generalize hdef : Real.sqrt (a.Qi * a.Qi + a.Qj * a.Qj + a.Qk * a.Qk) = u at *
    have hes : 0 < Real.exp a.Qr * Real.sin u := mul_pos he hs
    have hM : Real.exp a.Qr * Real.sin u / u * a.Qi * (Real.exp a.Qr * Real.sin u / u * a.Qi) +
        Real.exp a.Qr * Real.sin u / u * a.Qj * (Real.exp a.Qr * Real.sin u / u * a.Qj) +
        Real.exp a.Qr * Real.sin u / u * a.Qk * (Real.exp a.Qr * Real.sin u / u * a.Qk) =
        Real.exp a.Qr * Real.sin u * (Real.exp a.Qr * Real.sin u) := by
      field_simp
      rw [huu]
      ring
    have hA : Real.sqrt (Real.exp a.Qr * Real.cos u * (Real.exp a.Qr * Real.cos u) +
        Real.exp a.Qr * Real.sin u * (Real.exp a.Qr * Real.sin u)) = Real.exp a.Qr := by
      rw [show Real.exp a.Qr * Real.cos u * (Real.exp a.Qr * Real.cos u) +
        Real.exp a.Qr * Real.sin u * (Real.exp a.Qr * Real.sin u) =
        Real.exp a.Qr * Real.exp a.Qr * (Real.sin u ^ 2 + Real.cos u ^ 2) by ring, hsc, mul_one]
      exact Real.sqrt_mul_self he.le
    have hlog := log_of_unit_ne_zero
      ⟨Real.exp a.Qr * Real.cos u, Real.exp a.Qr * Real.sin u / u * a.Qi,
        Real.exp a.Qr * Real.sin u / u * a.Qj, Real.exp a.Qr * Real.sin u / u * a.Qk⟩
      (by dsimp only; exact hM) (by dsimp only; exact hA) (Real.sqrt_mul_self hes.le)
      hes.ne' he.ne'
    rw [exp_of_unit_ne_zero a hdef hu, Option.some_bind, hlog]
    have hc : Real.exp a.Qr * Real.cos u / Real.exp a.Qr = Real.cos u := by
      field_simp
    simp only [hc, Real.arccos_cos hupos.le h.le, Real.log_exp]
    cases a
    simp only [Option.some.injEq, Quaternion.mk.injEq, true_and]
    refine ⟨?_, ?_, ?_⟩ <;> field_simp <;> ring

/-- For a quaternion with a non-zero imaginary part, `Log` returns and `Exp` of
its result returns the quaternion itself; no division by zero is met. -/
theorem log_exp_of_img_ne_null {q : Quaternion ℝ} (h : q.Img ≠ Null) :
    (q.Log Real.log Real.sqrt Real.arccos).bind
      (Quaternion.Exp Real.exp Real.sqrt Real.sin Real.cos) = some q := by
  have hNpos := img_sq_sum_pos h
  obtain ⟨r, i, j, k⟩ := q
  dsimp only at hNpos
  have hupos : 0 < Real.sqrt (i * i + j * j + k * k) := Real.sqrt_pos.2 hNpos
  have huu := Real.mul_self_sqrt hNpos.le
  have hApos : 0 < Real.sqrt (r * r + (i * i + j * j + k * k)) :=
    Real.sqrt_pos.2 (by nlinarith [mul_self_nonneg r])
  have hAA : Real.sqrt (r * r + (i * i + j * j + k * k)) *
      Real.sqrt (r * r + (i * i + j * j + k * k)) = r * r + (i * i + j * j + k * k) :=
    Real.mul_self_sqrt (by nlinarith [mul_self_nonneg r])
  generalize hu : Real.sqrt (i * i + j * j + k * k) = u at *
  generalize hA : Real.sqrt (r * r + (i * i + j * j + k * k)) = A at *
  have hlt : r / A < 1 := by
    rw [div_lt_one hApos]
    nlinarith
  have hgt : -1 < r / A := by
    rw [lt_div_iff₀ hApos]
    nlinarith
  have hθpos : 0 < Real.arccos (r / A) := Real.arccos_pos.2 hlt
  have hcos : Real.cos (Real.arccos (r / A)) = r / A := Real.cos_arccos hgt.le hlt.le
  have hsin : Real.sin (Real.arccos (r / A)) = u / A := by
    rw [Real.sin_arccos]
    have h1 : 1 - (r / A) ^ 2 = u / A * (u / A) := by
      field_simp
      nlinarith
    rw [h1]
    exact Real.sqrt_mul_self (div_nonneg hupos.le hApos.le)
  have hlog := log_of_unit_ne_zero ⟨r, i, j, k⟩ (M := i * i + j * j + k * k) rfl hA hu
    hupos.ne' hApos.ne'
  dsimp only at hlog
  have hM : Real.arccos (r / A) / u * i * (Real.arccos (r / A) / u * i) +
      Real.arccos (r / A) / u * j * (Real.arccos (r / A) / u * j) +
      Real.arccos (r / A) / u * k * (Real.arccos (r / A) / u * k) =
      Real.arccos (r / A) * Real.arccos (r / A) := by
    field_simp
    rw [huu]
    ring
  have hexp := exp_of_unit_ne_zero
    ⟨Real.log A, Real.arccos (r / A) / u * i, Real.arccos (r / A) / u * j,
      Real.arccos (r / A) / u * k⟩ (U := Real.arccos (r / A))
    (by dsimp only; rw [hM]; exact Real.sqrt_mul_self hθpos.le) hθpos.ne'
  dsimp only at hexp
  rw [hlog, Option.some_bind, hexp, Real.exp_log hApos, hcos, hsin]
  simp only [Option.some.injEq, Quaternion.mk.injEq]
  refine ⟨?_, ?_, ?_, ?_⟩ <;> field_simp <;> ring

/-- For a real quaternion `(r,0,0,0)` with `r` not zero, `Log` returns
`(ln |r|,0,0,0)` and `Exp` of that returns `(|r|,0,0,0)`: the sign of `r` is
lost. -/
theorem log_exp_of_img_null {q : Quaternion ℝ} (h : q.Img = Null) (hr : q.Qr ≠ 0) :
    (q.Log Real.log Real.sqrt Real.arccos).bind
      (Quaternion.Exp Real.exp Real.sqrt Real.sin Real.cos) = some ⟨|q.Qr|, 0, 0, 0⟩ := by
  obtain ⟨r, i, j, k⟩ := q
  simp only [Quaternion.Img, Null, q0, Quaternion.mk.injEq, true_and] at h
  obtain ⟨rfl, rfl, rfl⟩ := h
  dsimp only at hr
  have hlog := log_of_unit_zero ⟨r, 0, 0, 0⟩ (M := 0) (A := |r|) (by simp)
    (by dsimp only; rw [add_zero]; exact Real.sqrt_mul_self_eq_abs r) (by simp)
  have hexp := exp_of_unit_zero ⟨Real.log |r|, 0, 0, 0⟩ (by simp)
  dsimp only at hexp
  rw [hlog, Option.some_bind, hexp, Real.exp_log (abs_pos.2 hr)]

/-! ## Closed forms of `Exp` and `Log` -/

/-- The imaginary square sum, written with squares or with products. -/
theorem img_sq_sum_eq (a : Quaternion ℝ) :
    a.Qi ^ 2 + a.Qj ^ 2 + a.Qk ^ 2 = a.Qi * a.Qi + a.Qj * a.Qj + a.Qk * a.Qk := by
  ring

/-- The argument of the square root in `Log` is the one in `Abs`. -/
theorem log_abs_arg_eq (a : Quaternion ℝ) :
    a.Qr * a.Qr + (a.Qi * a.Qi + a.Qj * a.Qj + a.Qk * a.Qk) =
      a.Qr * a.Qr + a.Qi * a.Qi + a.Qj * a.Qj + a.Qk * a.Qk := by
  ring

/-- When `unit` is not zero, `abs` is not zero either. -/
theorem abs_ne_zero_of_unit_ne_zero (a : Quaternion ℝ)
    (h : Real.sqrt (a.Qi * a.Qi + a.Qj * a.Qj + a.Qk * a.Qk) ≠ 0) :
    Real.sqrt (a.Qr * a.Qr + (a.Qi * a.Qi + a.Qj * a.Qj + a.Qk * a.Qk)) ≠ 0 := by
  have hN : 0 < a.Qi * a.Qi + a.Qj * a.Qj + a.Qk * a.Qk :=
    Real.sqrt_pos.1 (lt_of_le_of_ne (Real.sqrt_nonneg _) (Ne.symm h))
  have hr := mul_self_nonneg a.Qr
  exact (Real.sqrt_pos.2 (by linarith)).ne'

/-- C11: for every real quaternion `a = (r,i,j,k)` with
`u = sqrt(i^2+j^2+k^2)`: if `u = 0` then `a.Exp()` returns `(e^r, 0, 0, 0)`;
otherwise it returns `(e^r*cos(u), f*i, f*j, f*k)` with `f = e^r*sin(u)/u`. -/
theorem exp_closed_form (a : Quaternion ℝ) :
    a.Exp Real.exp Real.sqrt Real.sin Real.cos =
      if Real.sqrt (a.Qi ^ 2 + a.Qj ^ 2 + a.Qk ^ 2) = 0 then
        some ⟨Real.exp a.Qr, 0, 0, 0⟩
      else
        some ⟨Real.exp a.Qr * Real.cos (Real.sqrt (a.Qi ^ 2 + a.Qj ^ 2 + a.Qk ^ 2)),
          Real.exp a.Qr * Real.sin (Real.sqrt (a.Qi ^ 2 + a.Qj ^ 2 + a.Qk ^ 2)) /
            Real.sqrt (a.Qi ^ 2 + a.Qj ^ 2 + a.Qk ^ 2) * a.Qi,
          Real.exp a.Qr * Real.sin (Real.sqrt (a.Qi ^ 2 + a.Qj ^ 2 + a.Qk ^ 2)) /
            Real.sqrt (a.Qi ^ 2 + a.Qj ^ 2 + a.Qk ^ 2) * a.Qj,
          Real.exp a.Qr * Real.sin (Real.sqrt (a.Qi ^ 2 + a.Qj ^ 2 + a.Qk ^ 2)) /
            Real.sqrt (a.Qi ^ 2 + a.Qj ^ 2 + a.Qk ^ 2) * a.Qk⟩ := by
  rw [img_sq_sum_eq]
  by_cases hu : Real.sqrt (a.Qi * a.Qi + a.Qj * a.Qj + a.Qk * a.Qk) = 0
  · rw [if_pos hu, exp_of_unit_zero a hu]
  · rw [if_neg hu, exp_of_unit_ne_zero a rfl hu]

/-- In exact real arithmetic, where the order of the additions does not
matter, the `abs` of `Log` is `a.Abs()`: if `u = 0` then `a.Log()` returns
`(ln(abs), 0, 0, 0)`; otherwise it returns `(ln(abs), g*i, g*j, g*k)` with
`g = acos(r/abs)/u`. -/
theorem log_closed_form (a : Quaternion ℝ) :
    a.Log Real.log Real.sqrt Real.arccos =
      if Real.sqrt (a.Qi ^ 2 + a.Qj ^ 2 + a.Qk ^ 2) = 0 then
        some ⟨Real.log (a.Abs Real.sqrt), 0, 0, 0⟩
      else
        some ⟨Real.log (a.Abs Real.sqrt),
          Real.arccos (a.Qr / a.Abs Real.sqrt) /
            Real.sqrt (a.Qi ^ 2 + a.Qj ^ 2 + a.Qk ^ 2) * a.Qi,
          Real.arccos (a.Qr / a.Abs Real.sqrt) /
            Real.sqrt (a.Qi ^ 2 + a.Qj ^ 2 + a.Qk ^ 2) * a.Qj,
          Real.arccos (a.Qr / a.Abs Real.sqrt) /
            Real.sqrt (a.Qi ^ 2 + a.Qj ^ 2 + a.Qk ^ 2) * a.Qk⟩ := by
  have hA : Real.sqrt (a.Qr * a.Qr + (a.Qi * a.Qi + a.Qj * a.Qj + a.Qk * a.Qk)) =
      a.Abs Real.sqrt := by
    rw [log_abs_arg_eq, Quaternion.Abs]
  rw [img_sq_sum_eq]
  by_cases hu : Real.sqrt (a.Qi * a.Qi + a.Qj * a.Qj + a.Qk * a.Qk) = 0
  · rw [if_pos hu, log_of_unit_zero a rfl hA hu]
  · rw [if_neg hu, log_of_unit_ne_zero a rfl hA rfl hu
      (hA ▸ abs_ne_zero_of_unit_ne_zero a hu)]

/-! ## Norm, absolute value, scalar and cross product -/

/-- In exact real arithmetic: `a.Norm()` is the sum of the squares of the four
components, `a.Abs()` is the non-negative square root of `a.Norm()`, and
`a.Abs()*a.Abs() = a.Norm()`; `y = (-3,4,0,2)` has `Norm` 29 and
`z = (-2,1,2,-4)` has `Abs` 5. -/
theorem norm_abs_spec :
    (∀ a : Quaternion ℝ,
      a.Norm = a.Qr ^ 2 + a.Qi ^ 2 + a.Qj ^ 2 + a.Qk ^ 2 ∧
      a.Abs Real.sqrt = Real.sqrt a.Norm ∧
      0 ≤ a.Abs Real.sqrt ∧
      a.Abs Real.sqrt * a.Abs Real.sqrt = a.Norm) ∧
    (⟨-3, 4, 0, 2⟩ : Quaternion ℝ).Norm = 29 ∧
    (⟨-2, 1, 2, -4⟩ : Quaternion ℝ).Abs Real.sqrt = 5 := by
  refine ⟨fun a => ⟨?_, rfl, Real.sqrt_nonneg _, ?_⟩, ?_, ?_⟩
  · simp only [Quaternion.Norm]
    ring
  · have h0 := mul_self_nonneg a.Qr
    have h1 := mul_self_nonneg a.Qi
    have h2 := mul_self_nonneg a.Qj
    have h3 := mul_self_nonneg a.Qk
    simp only [Quaternion.Abs, Quaternion.Norm]
    exact Real.mul_self_sqrt (by linarith)
  · simp only [Quaternion.Norm]
    norm_num
  · simp only [Quaternion.Abs]
    rw [show (-2 : ℝ) * -2 + 1 * 1 + 2 * 2 + -4 * -4 = 5 * 5 by norm_num]
    exact Real.sqrt_mul_self (by norm_num)

/-- C14: for all quaternions `a` and `b`, `a.CrossProd(b)` has real component
zero and imaginary components `(aj*bk - ak*bj, -ai*bk + ak*bi, ai*bj - aj*bi)`;
replacing the real components of `a` and `b` by any other values leaves the
result unchanged; and `z = (-2,1,2,-4)`, `y = (-3,4,0,2)` give
`z.CrossProd(y) = (0,4,-18,-8)`. -/
theorem crossprod_spec :
    (∀ a b : Quaternion ℝ,
      (a.CrossProd b).Qr = 0 ∧
      (a.CrossProd b).Qi = a.Qj * b.Qk - a.Qk * b.Qj ∧
      (a.CrossProd b).Qj = -a.Qi * b.Qk + a.Qk * b.Qi ∧
      (a.CrossProd b).Qk = a.Qi * b.Qj - a.Qj * b.Qi ∧
      ∀ r s : ℝ, (⟨r, a.Qi, a.Qj, a.Qk⟩ : Quaternion ℝ).CrossProd ⟨s, b.Qi, b.Qj, b.Qk⟩ =
        a.CrossProd b) ∧
    (⟨-2, 1, 2, -4⟩ : Quaternion ℝ).CrossProd ⟨-3, 4, 0, 2⟩ = ⟨0, 4, -18, -8⟩ := by
  refine ⟨fun a b => ⟨rfl, rfl, rfl, rfl, fun r s => rfl⟩, ?_⟩
  simp only [Quaternion.CrossProd, Quaternion.mk.injEq]
  norm_num

/-- C15: for all quaternions `a` and `b`, `a.ScalarProd(b)` is the dot product
`ar*br + ai*bi + aj*bj + ak*bk` of the two 4-tuples; it is symmetric, and
`a.ScalarProd(a)` is `a.Norm()`; `y = (-3,4,0,2)`, `z = (-2,1,2,-4)` give
`y.ScalarProd(z) = 2`. -/
theorem scalarprod_spec :
    (∀ a b : Quaternion ℝ,
      a.ScalarProd b = a.Qr * b.Qr + a.Qi * b.Qi + a.Qj * b.Qj + a.Qk * b.Qk ∧
      a.ScalarProd b = b.ScalarProd a ∧ a.ScalarProd a = a.Norm) ∧
    (⟨-3, 4, 0, 2⟩ : Quaternion ℝ).ScalarProd ⟨-2, 1, 2, -4⟩ = 2 := by
  refine ⟨fun a b => ⟨rfl, ?_, rfl⟩, ?_⟩
  · simp only [Quaternion.ScalarProd]
    ring
  · simp only [Quaternion.ScalarProd]
    norm_num

/-! ## Divisions and their divisors -/

/-- C16 as stated fails: at the zero quaternion `abs` is `sqrt 0 = 0`, so the
quotient `a.Qr/abs` would have no value, yet `Null().Log()` returns a value,
`(ln 0, 0, 0, 0)`: the run left through the `unit == 0` branch and never
evaluated that quotient. -/
theorem log_null_reaches_no_division :
    Real.sqrt ((Null : Quaternion ℝ).Qr * (Null : Quaternion ℝ).Qr +
        ((Null : Quaternion ℝ).Qi * (Null : Quaternion ℝ).Qi +
          (Null : Quaternion ℝ).Qj * (Null : Quaternion ℝ).Qj +
          (Null : Quaternion ℝ).Qk * (Null : Quaternion ℝ).Qk)) = 0 ∧
      fdiv (Null : Quaternion ℝ).Qr (0 : ℝ) = none ∧
      (Null : Quaternion ℝ).Log Real.log Real.sqrt Real.arccos = some ⟨Real.log 0, 0, 0, 0⟩ ∧
      (Null : Quaternion ℝ).Log Real.log Real.sqrt Real.arccos ≠ none := by
  have hlog : (Null : Quaternion ℝ).Log Real.log Real.sqrt Real.arccos =
      some ⟨Real.log 0, 0, 0, 0⟩ := by
    simp [Quaternion.Log, Null, q0]
  refine ⟨by simp [Null, q0], by simp [fdiv], hlog, ?_⟩
  rw [hlog]
  exact Option.some_ne_none _

/-- C16, as amended: `Null().Log()` evaluates no division. With `imgnorm = 0`,
`unit = sqrt 0` is zero, the guard `unit == 0` is taken, and the result is
`(math.Log(abs), 0, 0, 0)` with `abs = sqrt 0 = 0`, whatever `math.Log` and
`math.Acos` return. -/
theorem log_null_takes_guard (Log Acos : ℝ → ℝ) :
    (Null : Quaternion ℝ).Abs Real.sqrt = 0 ∧
      (Null : Quaternion ℝ).Log Log Real.sqrt Acos = some ⟨Log 0, 0, 0, 0⟩ ∧
      (Null : Quaternion ℝ).Log Log Real.sqrt Acos =
        some ⟨Log ((Null : Quaternion ℝ).Abs Real.sqrt), 0, 0, 0⟩ := by
  have habs : (Null : Quaternion ℝ).Abs Real.sqrt = 0 := by
    simp [Quaternion.Abs, Null, q0]
  refine ⟨habs, ?_, ?_⟩
  · simp [Quaternion.Log, Null, q0]
  · rw [habs]
    simp [Quaternion.Log, Null, q0]

/-- C17: for every real quaternion, `Signum`, `Inv`, `Exp` and `Log` all
return a value, so every division they evaluate has a non-zero divisor,
whatever `math.Exp`, `math.Sin`, `math.Cos`, `math.Log` and `math.Acos` return:
a non-zero `norm` has a non-zero square root `abs`, and in `Log` a non-zero
`unit` forces a non-zero `abs`. -/
theorem divisions_have_nonzero_divisor (Exp Sin Cos Log Acos : ℝ → ℝ) (a : Quaternion ℝ) :
    (∃ b, a.Signum Real.sqrt = some b) ∧ (∃ b, a.Inv = some b) ∧
      (∃ b, a.Exp Exp Real.sqrt Sin Cos = some b) ∧
      (∃ b, a.Log Log Real.sqrt Acos = some b) ∧
      (¬ a.Norm = 0 → ¬ Real.sqrt a.Norm = 0) ∧
      (¬ Real.sqrt (a.Qi * a.Qi + a.Qj * a.Qj + a.Qk * a.Qk) = 0 →
        ¬ Real.sqrt (a.Qr * a.Qr + (a.Qi * a.Qi + a.Qj * a.Qj + a.Qk * a.Qk)) = 0) := by
  have hsqrt : ¬ a.Norm = 0 → ¬ Real.sqrt a.Norm = 0 := by
    intro hn
    have h0 := mul_self_nonneg a.Qr
    have h1 := mul_self_nonneg a.Qi
    have h2 := mul_self_nonneg a.Qj
    have h3 := mul_self_nonneg a.Qk
    have hge : 0 ≤ a.Norm := by
      simp only [Quaternion.Norm]
      linarith
    exact (Real.sqrt_pos.2 (lt_of_le_of_ne hge (Ne.symm hn))).ne'
  refine ⟨?_, ?_, ?_, ?_, hsqrt, abs_ne_zero_of_unit_ne_zero a⟩
  · by_cases hn : a.Norm = 0
    · simp only [Quaternion.Norm] at hn
      simp [Quaternion.Signum, hn]
    · have hs := hsqrt hn
      simp only [Quaternion.Norm] at hn hs
      simp [Quaternion.Signum, fdiv, hn, hs]
  · by_cases hn : a.Norm = 0
    · simp only [Quaternion.Norm] at hn
      simp [Quaternion.Inv, hn]
    · simp only [Quaternion.Norm] at hn
      simp [Quaternion.Inv, fdiv, hn]
  · by_cases hu : Real.sqrt (a.Qi * a.Qi + a.Qj * a.Qj + a.Qk * a.Qk) = 0
    · simp [Quaternion.Exp, hu]
    · simp [Quaternion.Exp, fdiv, hu]
  · by_cases hu : Real.sqrt (a.Qi * a.Qi + a.Qj * a.Qj + a.Qk * a.Qk) = 0
    · simp [Quaternion.Log, hu]
    · have hA := abs_ne_zero_of_unit_ne_zero a hu
      simp [Quaternion.Log, fdiv, hu, hA]

/-! ## Algebraic laws of `Mult` -/

/-- In exact arithmetic (any commutative ring): `a.Mult(b).Norm()` equals
`a.Norm() * b.Norm()`. -/
theorem norm_mult [CommRing F] (a b : Quaternion F) : (a.Mult b).Norm = a.Norm * b.Norm := by
  simp only [Quaternion.Mult, Quaternion.Norm]
  ring

/-- In exact arithmetic (any commutative ring): `a.Mult(b).Mult(c)` equals
`a.Mult(b.Mult(c))`. -/
theorem mult_assoc_quaternion [CommRing F] (a b c : Quaternion F) :
    (a.Mult b).Mult c = a.Mult (b.Mult c) := by
  simp only [Quaternion.Mult, Quaternion.mk.injEq]
  refine ⟨by ring, by ring, by ring, by ring⟩

/-- C20: `I().Mult(I())`, `J().Mult(J())`, `K().Mult(K())` and
`I().Mult(J()).Mult(K())` all equal `(-1,0,0,0)`, and `One()` is a two-sided
identity: `One().Mult(a) = a.Mult(One()) = a` for every quaternion `a`. -/
theorem hamilton_identities [Field F] :
    (I : Quaternion F).Mult I = ⟨-1, 0, 0, 0⟩ ∧
      (J : Quaternion F).Mult J = ⟨-1, 0, 0, 0⟩ ∧
      (K : Quaternion F).Mult K = ⟨-1, 0, 0, 0⟩ ∧
      ((I : Quaternion F).Mult J).Mult K = ⟨-1, 0, 0, 0⟩ ∧
      ∀ a : Quaternion F, (One : Quaternion F).Mult a = a ∧ a.Mult One = a := by
  refine ⟨?_, ?_, ?_, ?_, fun a => ⟨?_, ?_⟩⟩
  · simp [Quaternion.Mult, I, qi]
  · simp [Quaternion.Mult, J, qj]
  · simp [Quaternion.Mult, K, qk]
  · simp [Quaternion.Mult, I, J, K, qi, qj, qk]
  · simp [Quaternion.Mult, One, q1]
  · simp [Quaternion.Mult, One, q1]

/-! ## Facts about the `float64` model -/

namespace F64

theorem pow2_eq_zpow (e : ℤ) : pow2 e = (2 : ℚ) ^ e := by
  unfold pow2
  split_ifs with h
  · obtain ⟨n, rfl⟩ := Int.eq_ofNat_of_zero_le h
    simp
  · push_neg at h
    obtain ⟨n, hn⟩ := Int.eq_ofNat_of_zero_le (by omega : 0 ≤ -e)
    have he : e = -(n : ℤ) := by omega
    subst he
    simp

theorem pow2_pos (e : ℤ) : 0 < pow2 e := by
  rw [pow2_eq_zpow]
  positivity

theorem pow2_le_pow2 {a b : ℤ} (h : a ≤ b) : pow2 a ≤ pow2 b := by
  rw [pow2_eq_zpow, pow2_eq_zpow]
  exact zpow_le_zpow_right₀ (by norm_num) h

theorem pow2_natCast (n : ℕ) : pow2 (n : ℤ) = ((2 ^ n : ℕ) : ℚ) := by
  rw [pow2_eq_zpow]
  simp

theorem log2Fuel_spec : ∀ (f n : ℕ), n ≠ 0 → n ≤ f →
    2 ^ log2Fuel f n ≤ n ∧ n < 2 ^ (log2Fuel f n + 1)
  | 0, n, h0, hf => absurd (Nat.le_zero.1 hf) h0
  | f + 1, n, h0, hf => by
    unfold log2Fuel
    split_ifs with h2
    · have : n = 1 := by omega
      subst this
      simp
    · have ih := log2Fuel_spec f (n / 2) (by omega) (by omega)
      constructor
      · calc 2 ^ (log2Fuel f (n / 2) + 1) = 2 ^ log2Fuel f (n / 2) * 2 := by ring
          _ ≤ n / 2 * 2 := Nat.mul_le_mul_right 2 ih.1
          _ ≤ n := Nat.div_mul_le_self n 2
      · have h3 : n / 2 + 1 ≤ 2 ^ (log2Fuel f (n / 2) + 1) := ih.2
        calc n < (n / 2 + 1) * 2 := by omega
          _ ≤ 2 ^ (log2Fuel f (n / 2) + 1) * 2 := Nat.mul_le_mul_right 2 h3
          _ = 2 ^ (log2Fuel f (n / 2) + 1 + 1) := by ring

theorem log2_spec {n : ℕ} (h : n ≠ 0) : 2 ^ log2 n ≤ n ∧ n < 2 ^ (log2 n + 1) :=
  log2Fuel_spec n n h le_rfl

/-- The exponent found by `ilog2` is not too large. -/
theorem pow2_ilog2_le {q : ℚ} (hq : 0 < q) : pow2 (ilog2 q) ≤ q := by
  unfold ilog2
  simp only
  split_ifs with h
  · exact h
  · have hnum : 0 < q.num := Rat.num_pos.2 hq
    have hn0 : q.num.natAbs ≠ 0 := by
      intro h0
      rw [Int.natAbs_eq_zero] at h0
      omega
    have hd0 : q.den ≠ 0 := q.den_nz
    have h1 := (log2_spec hn0).1
    have h2 := (log2_spec hd0).2
    rw [pow2_eq_zpow]
    have hq' : q = (q.num.natAbs : ℚ) / (q.den : ℚ) := by
      have hcast : ((q.num.natAbs : ℤ) : ℚ) = (q.num : ℚ) := by
        rw [Int.natAbs_of_nonneg hnum.le]
      rw [← Int.cast_natCast, hcast]
      exact (Rat.num_div_den q).symm
    have hdpos : (0 : ℚ) < (q.den : ℚ) := by exact_mod_cast Nat.pos_of_ne_zero hd0
    have e1 : (2 : ℚ) ^ (log2 q.num.natAbs) ≤ (q.num.natAbs : ℚ) := by exact_mod_cast h1
    have e2 : (q.den : ℚ) ≤ (2 : ℚ) ^ (log2 q.den + 1) := by exact_mod_cast h2.le
    have e3 : (2 : ℚ) ^ ((log2 q.num.natAbs : ℤ) - (log2 q.den : ℤ) - 1) =
        (2 : ℚ) ^ (log2 q.num.natAbs) / (2 : ℚ) ^ (log2 q.den + 1) := by
      rw [sub_sub, zpow_sub₀ (by norm_num)]
      norm_cast
    rw [e3]
    calc (2 : ℚ) ^ (log2 q.num.natAbs) / (2 : ℚ) ^ (log2 q.den + 1)
        ≤ (q.num.natAbs : ℚ) / (q.den : ℚ) := div_le_div₀ (by positivity) e1 hdpos e2
      _ = q := hq'.symm

theorem roundEven_intCast (n : ℤ) : roundEven (n : ℚ) = n := by
  unfold roundEven
  simp

theorem floor_le_roundEven (t : ℚ) : t.num / (t.den : ℤ) ≤ roundEven t := by
  unfold roundEven
  simp only
  split_ifs <;> omega

theorem one_le_roundEven {t : ℚ} (h : 1 ≤ t) : 1 ≤ roundEven t := by
  refine le_trans ?_ (floor_le_roundEven t)
  have h1 : (1 : ℤ) ≤ ⌊t⌋ := Int.le_floor.2 (by exact_mod_cast h)
  rwa [Rat.floor_def] at h1

theorem roundEven_nonneg {t : ℚ} (h : 0 ≤ t) : 0 ≤ roundEven t := by
  refine le_trans ?_ (floor_le_roundEven t)
  have h1 : (0 : ℤ) ≤ ⌊t⌋ := Int.le_floor.2 (by exact_mod_cast h)
  rwa [Rat.floor_def] at h1

theorem roundMag_natCast {n : ℕ} (h0 : 0 < n) (h : n < 2 ^ 53) : roundMag (n : ℚ) = n := by
  have hq : (0 : ℚ) < n := by exact_mod_cast h0
  have hL := pow2_ilog2_le hq
  have hL53 : ilog2 (n : ℚ) ≤ 52 := by
    by_contra hc
    have hc' : (53 : ℤ) ≤ ilog2 (n : ℚ) := by omega
    have h1 := pow2_le_pow2 hc'
    have h53 : pow2 53 = 2 ^ 53 := by
      rw [pow2_eq_zpow]
      norm_cast
    have h2 : (n : ℚ) < 2 ^ 53 := by exact_mod_cast h
    rw [h53] at h1
    linarith
  unfold roundMag
  simp only
  have he52 : max (ilog2 (n : ℚ)) (-1022) ≤ 52 := max_le hL53 (by norm_num)
  obtain ⟨k, hk⟩ : ∃ k : ℕ, max (ilog2 (n : ℚ)) (-1022) - 52 = -(k : ℤ) :=
    ⟨(52 - max (ilog2 (n : ℚ)) (-1022)).toNat, by omega⟩
  rw [hk, pow2_eq_zpow, zpow_neg, zpow_natCast]
  have ht : (n : ℚ) / ((2 : ℚ) ^ k)⁻¹ = (((n : ℤ) * 2 ^ k : ℤ) : ℚ) := by
    push_cast
    field_simp
  rw [ht, roundEven_intCast]
  push_cast
  field_simp

theorem pow2_1024_gt {n : ℕ} (h : n < 2 ^ 53) : ¬ pow2 1024 ≤ (n : ℚ) := by
  have h1 : pow2 53 ≤ pow2 1024 := pow2_le_pow2 (by norm_num)
  have h53 : pow2 53 = 2 ^ 53 := by
    rw [pow2_eq_zpow]
    norm_cast
  have h2 : (n : ℚ) < 2 ^ 53 := by exact_mod_cast h
  rw [h53] at h1
  intro hc
  linarith

/-- An integer below `2^53` in magnitude is a float64 value: rounding keeps it. -/
theorem ofRat_intCast {z : ℤ} (h : |z| < 2 ^ 53) : ofRat (z : ℚ) = fin (z : ℚ) := by
  by_cases hz : z = 0
  · subst hz
    simp [ofRat]
  · have hn0 : 0 < z.natAbs := Int.natAbs_pos.2 hz
    have hn : z.natAbs < 2 ^ 53 := by
      have : (z.natAbs : ℤ) < 2 ^ 53 := by rwa [Int.natCast_natAbs]
      exact_mod_cast this
    have habs : |(z : ℚ)| = (z.natAbs : ℚ) := by
      rw [← Int.cast_abs, ← Int.natCast_natAbs, Int.cast_natCast]
    have hq0 : (z : ℚ) ≠ 0 := by exact_mod_cast hz
    unfold ofRat
    rw [if_neg hq0, habs, roundMag_natCast hn0 hn, if_neg (pow2_1024_gt hn)]
    congr 1
    split_ifs with hneg
    · have : z < 0 := by exact_mod_cast hneg
      rw [← Int.cast_natCast, Int.natCast_natAbs, abs_of_neg this]
      simp
    · have : 0 ≤ z := by
        have : ¬ z < 0 := by exact_mod_cast hneg
        omega
      rw [← Int.cast_natCast, Int.natCast_natAbs, abs_of_nonneg this]

theorem fin_add_fin (x y : ℚ) : (fin x + fin y : F64) = ofRat (x + y) := rfl

theorem fin_sub_fin (x y : ℚ) : (fin x - fin y : F64) = ofRat (x + -y) := rfl

theorem fin_mul_fin (x y : ℚ) : (fin x * fin y : F64) = ofRat (x * y) := rfl

theorem IsInt.weaken {x : F64} {z M N : ℤ} (h : IsInt x z M) (hMN : M ≤ N) : IsInt x z N :=
  ⟨h.1, h.2.trans hMN⟩

/-- A product of two integers is exact as long as it stays below `2^53`. -/
theorem IsInt.mul_exact {x y : F64} {a b M N : ℤ} (hx : IsInt x a M) (hy : IsInt y b N)
    (h : M * N < 2 ^ 53) : IsInt (x * y) (a * b) (M * N) := by
  obtain ⟨rfl, ha⟩ := hx
  obtain ⟨rfl, hb⟩ := hy
  have hab : |a * b| ≤ M * N := by
    rw [abs_mul]
    exact mul_le_mul ha hb (abs_nonneg b) ((abs_nonneg a).trans ha)
  refine ⟨?_, hab⟩
  rw [fin_mul_fin, ← Int.cast_mul, ofRat_intCast (lt_of_le_of_lt hab h)]

/-- A sum of two integers is exact as long as it stays below `2^53`. -/
theorem IsInt.add_exact {x y : F64} {a b M N : ℤ} (hx : IsInt x a M) (hy : IsInt y b N)
    (h : M + N < 2 ^ 53) : IsInt (x + y) (a + b) (M + N) := by
  obtain ⟨rfl, ha⟩ := hx
  obtain ⟨rfl, hb⟩ := hy
  have hab : |a + b| ≤ M + N := (abs_add a b).trans (add_le_add ha hb)
  refine ⟨?_, hab⟩
  rw [fin_add_fin, ← Int.cast_add, ofRat_intCast (lt_of_le_of_lt hab h)]

/-- A difference of two integers is exact as long as it stays below `2^53`. -/
theorem IsInt.sub_exact {x y : F64} {a b M N : ℤ} (hx : IsInt x a M) (hy : IsInt y b N)
    (h : M + N < 2 ^ 53) : IsInt (x - y) (a - b) (M + N) := by
  obtain ⟨rfl, ha⟩ := hx
  obtain ⟨rfl, hb⟩ := hy
  have hab : |a - b| ≤ M + N := (abs_sub a b).trans (add_le_add ha hb)
  refine ⟨?_, hab⟩
  rw [fin_sub_fin, ← Int.cast_neg, ← Int.cast_add, ← sub_eq_add_neg,
    ofRat_intCast (lt_of_le_of_lt hab h)]

theorem isInt_ofInt {z M : ℤ} (hz : |z| ≤ M) (hM : M < 2 ^ 53) : IsInt (ofInt z) z M :=
  ⟨ofRat_intCast (lt_of_le_of_lt hz hM), hz⟩

theorem roundMag_zero_or_ge {q : ℚ} (hq : 0 ≤ q) :
    roundMag q = 0 ∨ pow2 (-1074) ≤ roundMag q := by
  unfold roundMag
  simp only
  have hulp : pow2 (-1074) ≤ pow2 (max (ilog2 q) (-1022) - 52) :=
    pow2_le_pow2 (by have := le_max_right (ilog2 q) (-1022); omega)
  have hpos := pow2_pos (max (ilog2 q) (-1022) - 52)
  have hm := roundEven_nonneg (div_nonneg hq hpos.le)
  rcases hm.eq_or_lt with h0 | h1
  · left
    rw [← h0]
    simp
  · right
    have h1' : (1 : ℚ) ≤ (roundEven (q / pow2 (max (ilog2 q) (-1022) - 52)) : ℚ) := by
      exact_mod_cast h1
    calc pow2 (-1074) ≤ pow2 (max (ilog2 q) (-1022) - 52) := hulp
      _ = 1 * pow2 (max (ilog2 q) (-1022) - 52) := (one_mul _).symm
      _ ≤ _ := mul_le_mul_of_nonneg_right h1' hpos.le

theorem roundMag_ge {q : ℚ} (hq : pow2 (-1074) ≤ q) : pow2 (-1074) ≤ roundMag q := by
  have hq0 : 0 < q := lt_of_lt_of_le (pow2_pos _) hq
  unfold roundMag
  simp only
  have hulp : pow2 (-1074) ≤ pow2 (max (ilog2 q) (-1022) - 52) :=
    pow2_le_pow2 (by have := le_max_right (ilog2 q) (-1022); omega)
  have hpos := pow2_pos (max (ilog2 q) (-1022) - 52)
  have hle : pow2 (max (ilog2 q) (-1022) - 52) ≤ q := by
    rcases max_choice (ilog2 q) (-1022) with h | h
    · rw [h]
      exact (pow2_le_pow2 (by omega)).trans (pow2_ilog2_le hq0)
    · rw [h]
      exact hq
  have ht : 1 ≤ q / pow2 (max (ilog2 q) (-1022) - 52) := (one_le_div hpos).2 hle
  have h1' : (1 : ℚ) ≤ (roundEven (q / pow2 (max (ilog2 q) (-1022) - 52)) : ℚ) := by
    exact_mod_cast one_le_roundEven ht
  calc pow2 (-1074) ≤ pow2 (max (ilog2 q) (-1022) - 52) := hulp
    _ = 1 * pow2 (max (ilog2 q) (-1022) - 52) := (one_mul _).symm
    _ ≤ _ := mul_le_mul_of_nonneg_right h1' hpos.le

theorem ofRat_nonNeg {q : ℚ} (hq : 0 ≤ q) : (ofRat q).NonNeg := by
  unfold ofRat
  have hneg : ¬ q < 0 := not_lt.2 hq
  split_ifs with h0 h1
  · left
    rfl
  · simp [NonNeg, hneg]
  · rw [abs_of_nonneg hq]
    exact roundMag_zero_or_ge hq

theorem ofRat_ne_zero {q : ℚ} (hq : pow2 (-1074) ≤ q) : ofRat q ≠ fin 0 := by
  have hq0 : 0 < q := lt_of_lt_of_le (pow2_pos _) hq
  unfold ofRat
  rw [if_neg hq0.ne', if_neg (not_lt.2 hq0.le), abs_of_pos hq0]
  split_ifs with h1
  · intro h
    cases h
  · intro h
    have h2 : roundMag q = 0 := by
      injection h
    have h3 := roundMag_ge hq
    have h4 := pow2_pos (-1074)
    linarith

theorem mul_self_nonNeg (x : F64) : (x * x).NonNeg := by
  cases x with
  | fin q => exact ofRat_nonNeg (mul_self_nonneg q)
  | inf s => cases s <;> rfl
  | nan => trivial

theorem NonNeg.rat_nonneg {q : ℚ} (h : (fin q).NonNeg) : 0 ≤ q := by
  rcases h with h | h
  · exact h.ge
  · exact (pow2_pos _).le.trans h

theorem NonNeg.add_nonNeg {x y : F64} (hx : x.NonNeg) (hy : y.NonNeg) : (x + y).NonNeg := by
  cases x with
  | fin a =>
    cases y with
    | fin b => exact ofRat_nonNeg (add_nonneg hx.rat_nonneg hy.rat_nonneg)
    | inf t => exact hy
    | nan => trivial
  | inf s =>
    cases y with
    | fin b => exact hx
    | inf t =>
      have hs : s = false := hx
      have ht : t = false := hy
      subst hs
      subst ht
      rfl
    | nan => trivial
  | nan => cases y <;> trivial

theorem NonNeg.add_ne_zero {x y : F64} (hx : x.NonNeg) (hy : y.NonNeg) (hy0 : y ≠ fin 0) :
    x + y ≠ fin 0 := by
  cases x with
  | fin a =>
    cases y with
    | fin b =>
      have hb : pow2 (-1074) ≤ b := by
        rcases hy with h | h
        · exact absurd (by rw [h]) hy0
        · exact h
      have ha := hx.rat_nonneg
      exact ofRat_ne_zero (by linarith)
    | inf t =>
      intro h
      cases h
    | nan =>
      intro h
      cases h
  | inf s =>
    cases y with
    | fin b =>
      intro h
      cases h
    | inf t =>
      have hs : s = false := hx
      have ht : t = false := hy
      subst hs
      subst ht
      intro h
      cases h
    | nan =>
      intro h
      cases h
  | nan =>
    cases y <;> (intro h; cases h)

theorem le_isqrtAux (n : ℕ) : ∀ k r : ℕ, r ≤ isqrtAux k n r
  | 0, r => le_rfl
  | k + 1, r => by
    unfold isqrtAux
    split_ifs
    · exact (Nat.le_add_right r (2 ^ k)).trans (le_isqrtAux n k _)
    · exact le_isqrtAux n k r

theorem one_le_isqrtAux {n : ℕ} (hn : 1 ≤ n) : ∀ k r : ℕ, 1 ≤ isqrtAux (k + 1) n r
  | 0, r => by
    unfold isqrtAux
    split_ifs with h
    · simp [isqrtAux]
    · simp only [isqrtAux]
      by_contra hr
      have hr0 : r = 0 := by omega
      subst hr0
      simp at h
      omega
  | k + 1, r => by
    unfold isqrtAux
    split_ifs
    · exact one_le_isqrtAux hn k _
    · exact one_le_isqrtAux hn k r

theorem one_le_isqrt {n : ℕ} (hn : 1 ≤ n) : 1 ≤ isqrt n :=
  one_le_isqrtAux hn _ 0

theorem sqrt_nonNeg (x : F64) : (sqrt x).NonNeg := by
  cases x with
  | fin q =>
    simp only [sqrt]
    split_ifs with h h2
    · trivial
    · exact ofRat_nonNeg (div_nonneg (by positivity) (pow2_pos 600).le)
    · exact ofRat_nonNeg (div_nonneg (by positivity) (pow2_pos 600).le)
  | inf s => cases s <;> simp [sqrt, NonNeg]
  | nan => trivial

theorem sqrt_ne_zero {x : F64} (hx : x.NonNeg) (hx0 : x ≠ fin 0) : sqrt x ≠ fin 0 := by
  cases x with
  | fin q =>
    have hq : pow2 (-1074) ≤ q := by
      rcases hx with h | h
      · exact absurd (by rw [h]) hx0
      · exact h
    have hq0 : 0 < q := lt_of_lt_of_le (pow2_pos _) hq
    simp only [sqrt]
    rw [if_neg (not_lt.2 hq0.le)]
    apply ofRat_ne_zero
    have ht : (1 : ℚ) ≤ q * pow2 1200 := by
      have h1 : pow2 (-1074) * pow2 1200 ≤ q * pow2 1200 :=
        mul_le_mul_of_nonneg_right hq (pow2_pos _).le
      have h2 : (1 : ℚ) ≤ pow2 (-1074) * pow2 1200 := by
        rw [pow2_eq_zpow, pow2_eq_zpow, ← zpow_add₀ (by norm_num)]
        exact one_le_zpow₀ (by norm_num) (by norm_num)
      linarith
    have hfl : (1 : ℤ) ≤ (q * pow2 1200).num / ((q * pow2 1200).den : ℤ) := by
      have h1 : (1 : ℤ) ≤ ⌊q * pow2 1200⌋ := Int.le_floor.2 (by exact_mod_cast ht)
      rwa [Rat.floor_def] at h1
    have hm : 1 ≤ ((q * pow2 1200).num / ((q * pow2 1200).den : ℤ)).toNat := by omega
    have hr := one_le_isqrt hm
    have hr' : (1 : ℚ) ≤ (isqrt ((q * pow2 1200).num / ((q * pow2 1200).den : ℤ)).toNat : ℚ) := by
      exact_mod_cast hr
    have h600 : pow2 (-1074) ≤ 1 / pow2 600 := by
      rw [pow2_eq_zpow, pow2_eq_zpow, one_div, ← zpow_neg]
      exact zpow_le_zpow_right₀ (by norm_num) (by norm_num)
    refine h600.trans (div_le_div_of_nonneg_right ?_ (pow2_pos 600).le)
    split_ifs
    · exact hr'
    · linarith
  | inf s =>
    have hs : s = false := hx
    subst hs
    intro h
    cases h
  | nan =>
    intro h
    cases h

end F64

theorem isIntQ_toF64 {a : Quaternion ℤ} {M : ℤ} (h : a.BoundedBy M) (hM : M < 2 ^ 53) :
    (toF64 a).IsIntQ a M :=
  ⟨F64.isInt_ofInt h.1 hM, F64.isInt_ofInt h.2.1 hM, F64.isInt_ofInt h.2.2.1 hM,
    F64.isInt_ofInt h.2.2.2 hM⟩

theorem Quaternion.IsIntQ.eq_of {x y : Quaternion F64} {a : Quaternion ℤ} {M N : ℤ}
    (hx : x.IsIntQ a M) (hy : y.IsIntQ a N) : x = y := by
  obtain ⟨xr, xi, xj, xk⟩ := x
  obtain ⟨yr, yi, yj, yk⟩ := y
  obtain ⟨h1, h2, h3, h4⟩ := hx
  obtain ⟨g1, g2, g3, g4⟩ := hy
  simp only [Quaternion.mk.injEq]
  exact ⟨h1.1.trans g1.1.symm, h2.1.trans g2.1.symm, h3.1.trans g3.1.symm,
    h4.1.trans g4.1.symm⟩

/-- On integer components `Mult` is exact in float64 as long as four times the
product of the bounds stays below `2^53`. -/
theorem Quaternion.IsIntQ.mult {x y : Quaternion F64} {a b : Quaternion ℤ} {M N : ℤ}
    (hx : x.IsIntQ a M) (hy : y.IsIntQ b N) (h : 4 * (M * N) < 2 ^ 53) :
    (x.Mult y).IsIntQ (a.Mult b) (4 * (M * N)) := by
  obtain ⟨xr, xi, xj, xk⟩ := hx
  obtain ⟨yr, yi, yj, yk⟩ := hy
  have hM : 0 ≤ M := (abs_nonneg _).trans xr.2
  have hN : 0 ≤ N := (abs_nonneg _).trans yr.2
  have hMN : 0 ≤ M * N := mul_nonneg hM hN
  have h1 : M * N < 2 ^ 53 := by linarith
  have h2 : M * N + M * N < 2 ^ 53 := by linarith
  have h3 : M * N + M * N + M * N < 2 ^ 53 := by linarith
  have h4 : M * N + M * N + M * N + M * N < 2 ^ 53 := by linarith
  have hle : M * N + M * N + M * N + M * N ≤ 4 * (M * N) := by linarith
  refine ⟨?_, ?_, ?_, ?_⟩
  · exact ((((xr.mul_exact yr h1).sub_exact (xi.mul_exact yi h1) h2).sub_exact (xj.mul_exact yj h1) h3).sub_exact
      (xk.mul_exact yk h1) h4).weaken hle
  · exact ((((xr.mul_exact yi h1).add_exact (xi.mul_exact yr h1) h2).add_exact (xj.mul_exact yk h1) h3).sub_exact
      (xk.mul_exact yj h1) h4).weaken hle
  · exact ((((xr.mul_exact yj h1).sub_exact (xi.mul_exact yk h1) h2).add_exact (xj.mul_exact yr h1) h3).add_exact
      (xk.mul_exact yi h1) h4).weaken hle
  · exact ((((xr.mul_exact yk h1).add_exact (xi.mul_exact yj h1) h2).sub_exact (xj.mul_exact yi h1) h3).add_exact
      (xk.mul_exact yr h1) h4).weaken hle

/-- On integer components `Norm` is exact in float64 as long as four times the
square of the bound stays below `2^53`. -/
theorem Quaternion.IsIntQ.norm {x : Quaternion F64} {a : Quaternion ℤ} {M : ℤ}
    (hx : x.IsIntQ a M) (h : 4 * (M * M) < 2 ^ 53) :
    F64.IsInt x.Norm a.Norm (4 * (M * M)) := by
  obtain ⟨xr, xi, xj, xk⟩ := hx
  have hM : 0 ≤ M := (abs_nonneg _).trans xr.2
  have hMM : 0 ≤ M * M := mul_nonneg hM hM
  have h1 : M * M < 2 ^ 53 := by linarith
  have h2 : M * M + M * M < 2 ^ 53 := by linarith
  have h3 : M * M + M * M + M * M < 2 ^ 53 := by linarith
  have h4 : M * M + M * M + M * M + M * M < 2 ^ 53 := by linarith
  have hle : M * M + M * M + M * M + M * M ≤ 4 * (M * M) := by linarith
  exact ((((xr.mul_exact xr h1).add_exact (xi.mul_exact xi h1) h2).add_exact (xj.mul_exact xj h1) h3).add_exact
    (xk.mul_exact xk h1) h4).weaken hle

/-! ## Algebraic laws of `Mult` in float64 -/

/-- C18 as stated fails in float64: for `a = (1e200,0,0,0)` and
`b = (1e-200,0,0,0)`, `a.Mult(b)` is `(1,0,0,0)` with `Norm` 1, while
`a.Norm()` overflows to `+Inf`, `b.Norm()` underflows to 0 and their product is
NaN; and for `(0.1,0.2,0.3,0.4)` and `(0.5,0.6,0.7,0.8)` the two sides differ by
rounding. -/
theorem norm_mult_fails_in_float64 :
    (⟨F64.ofRat (10 ^ 200), 0, 0, 0⟩ : Quaternion F64).Mult ⟨F64.ofRat (1 / 10 ^ 200), 0, 0, 0⟩ =
        ⟨1, 0, 0, 0⟩ ∧
      ((⟨F64.ofRat (10 ^ 200), 0, 0, 0⟩ : Quaternion F64).Mult
        ⟨F64.ofRat (1 / 10 ^ 200), 0, 0, 0⟩).Norm = 1 ∧
      (⟨F64.ofRat (10 ^ 200), 0, 0, 0⟩ : Quaternion F64).Norm = F64.inf false ∧
      (⟨F64.ofRat (1 / 10 ^ 200), 0, 0, 0⟩ : Quaternion F64).Norm = 0 ∧
      (⟨F64.ofRat (10 ^ 200), 0, 0, 0⟩ : Quaternion F64).Norm *
        (⟨F64.ofRat (1 / 10 ^ 200), 0, 0, 0⟩ : Quaternion F64).Norm = F64.nan ∧
      ((⟨F64.ofRat (10 ^ 200), 0, 0, 0⟩ : Quaternion F64).Mult
        ⟨F64.ofRat (1 / 10 ^ 200), 0, 0, 0⟩).Norm ≠
        (⟨F64.ofRat (10 ^ 200), 0, 0, 0⟩ : Quaternion F64).Norm *
          (⟨F64.ofRat (1 / 10 ^ 200), 0, 0, 0⟩ : Quaternion F64).Norm ∧
      ((⟨F64.ofRat (1 / 10), F64.ofRat (2 / 10), F64.ofRat (3 / 10), F64.ofRat (4 / 10)⟩ :
        Quaternion F64).Mult
        ⟨F64.ofRat (5 / 10), F64.ofRat (6 / 10), F64.ofRat (7 / 10), F64.ofRat (8 / 10)⟩).Norm ≠
        (⟨F64.ofRat (1 / 10), F64.ofRat (2 / 10), F64.ofRat (3 / 10), F64.ofRat (4 / 10)⟩ :
          Quaternion F64).Norm *
        (⟨F64.ofRat (5 / 10), F64.ofRat (6 / 10), F64.ofRat (7 / 10), F64.ofRat (8 / 10)⟩ :
          Quaternion F64).Norm := by
  decide!

/-- C18, as amended: for all quaternions `a` and `b` whose components are
integers of magnitude at most 2048, `a.Mult(b).Norm()` equals
`a.Norm() * b.Norm()` in float64: every product and sum is then an integer
below `2^53` and is computed without rounding. -/
theorem norm_mult_small_integers (a b : Quaternion ℤ) (ha : a.BoundedBy 2048)
    (hb : b.BoundedBy 2048) :
    ((toF64 a).Mult (toF64 b)).Norm = (toF64 a).Norm * (toF64 b).Norm := by
  have hA := isIntQ_toF64 ha (by norm_num)
  have hB := isIntQ_toF64 hb (by norm_num)
  have hL := (hA.mult hB (by norm_num)).norm (by norm_num)
  have hR := (hA.norm (by norm_num)).mul_exact (hB.norm (by norm_num)) (by norm_num)
  rw [hL.1, hR.1, norm_mult a b]

theorem norm_mult_small_integers_witness :
    (⟨1, 2, -3, 4⟩ : Quaternion ℤ).BoundedBy 2048 ∧
      (⟨-2048, 0, 7, 2048⟩ : Quaternion ℤ).BoundedBy 2048 ∧
      ((toF64 ⟨1, 2, -3, 4⟩).Mult (toF64 ⟨-2048, 0, 7, 2048⟩)).Norm =
        (toF64 ⟨1, 2, -3, 4⟩).Norm * (toF64 ⟨-2048, 0, 7, 2048⟩).Norm :=
  have ha : (⟨1, 2, -3, 4⟩ : Quaternion ℤ).BoundedBy 2048 := by
    simp only [Quaternion.BoundedBy]
    norm_num
  have hb : (⟨-2048, 0, 7, 2048⟩ : Quaternion ℤ).BoundedBy 2048 := by
    simp only [Quaternion.BoundedBy]
    norm_num
  ⟨ha, hb, norm_mult_small_integers _ _ ha hb⟩

/-- C19 as stated fails in float64: for `a = b = (1e200,0,0,0)` and
`c = (1e-200,0,0,0)`, `a.Mult(b)` overflows to `(+Inf,0,0,0)` and
`a.Mult(b).Mult(c)` is `(+Inf,NaN,NaN,NaN)`, while `b.Mult(c)` is `(1,0,0,0)`
and `a.Mult(b.Mult(c))` is `a`; and for `(0.1,0,0,0)`, `(0.2,0,0,0)` and
`(0.3,0,0,0)` the two sides differ by rounding. -/
theorem mult_assoc_fails_in_float64 :
    (⟨F64.ofRat (10 ^ 200), 0, 0, 0⟩ : Quaternion F64).Mult ⟨F64.ofRat (10 ^ 200), 0, 0, 0⟩ =
        ⟨F64.inf false, 0, 0, 0⟩ ∧
      ((⟨F64.ofRat (10 ^ 200), 0, 0, 0⟩ : Quaternion F64).Mult
        ⟨F64.ofRat (10 ^ 200), 0, 0, 0⟩).Mult ⟨F64.ofRat (1 / 10 ^ 200), 0, 0, 0⟩ =
        ⟨F64.inf false, F64.nan, F64.nan, F64.nan⟩ ∧
      (⟨F64.ofRat (10 ^ 200), 0, 0, 0⟩ : Quaternion F64).Mult
        ((⟨F64.ofRat (10 ^ 200), 0, 0, 0⟩ : Quaternion F64).Mult
          ⟨F64.ofRat (1 / 10 ^ 200), 0, 0, 0⟩) = ⟨F64.ofRat (10 ^ 200), 0, 0, 0⟩ ∧
      ((⟨F64.ofRat (10 ^ 200), 0, 0, 0⟩ : Quaternion F64).Mult
        ⟨F64.ofRat (10 ^ 200), 0, 0, 0⟩).Mult ⟨F64.ofRat (1 / 10 ^ 200), 0, 0, 0⟩ ≠
        (⟨F64.ofRat (10 ^ 200), 0, 0, 0⟩ : Quaternion F64).Mult
          ((⟨F64.ofRat (10 ^ 200), 0, 0, 0⟩ : Quaternion F64).Mult
            ⟨F64.ofRat (1 / 10 ^ 200), 0, 0, 0⟩) ∧
      ((⟨F64.ofRat (1 / 10), 0, 0, 0⟩ : Quaternion F64).Mult
        ⟨F64.ofRat (2 / 10), 0, 0, 0⟩).Mult ⟨F64.ofRat (3 / 10), 0, 0, 0⟩ ≠
        (⟨F64.ofRat (1 / 10), 0, 0, 0⟩ : Quaternion F64).Mult
          ((⟨F64.ofRat (2 / 10), 0, 0, 0⟩ : Quaternion F64).Mult
            ⟨F64.ofRat (3 / 10), 0, 0, 0⟩) := by
  decide!

/-- C19, as amended: for all quaternions `a`, `b` and `c` whose components are
integers of magnitude at most 65536, `a.Mult(b).Mult(c)` equals
`a.Mult(b.Mult(c))` in float64: every product and sum is then an integer below
`2^53` and is computed without rounding. -/
theorem mult_assoc_small_integers (a b c : Quaternion ℤ) (ha : a.BoundedBy 65536)
    (hb : b.BoundedBy 65536) (hc : c.BoundedBy 65536) :
    ((toF64 a).Mult (toF64 b)).Mult (toF64 c) = (toF64 a).Mult ((toF64 b).Mult (toF64 c)) := by
  have hA := isIntQ_toF64 ha (by norm_num)
  have hB := isIntQ_toF64 hb (by norm_num)
  have hC := isIntQ_toF64 hc (by norm_num)
  have hL := (hA.mult hB (by norm_num)).mult hC (by norm_num)
  have hR := hA.mult (hB.mult hC (by norm_num)) (by norm_num)
  rw [mult_assoc_quaternion a b c] at hL
  exact hL.eq_of hR

theorem mult_assoc_small_integers_witness :
    (⟨1, 2, -3, 4⟩ : Quaternion ℤ).BoundedBy 65536 ∧
      (⟨-65536, 0, 7, 65536⟩ : Quaternion ℤ).BoundedBy 65536 ∧
      (⟨5, -6, 7, 8⟩ : Quaternion ℤ).BoundedBy 65536 ∧
      ((toF64 ⟨1, 2, -3, 4⟩).Mult (toF64 ⟨-65536, 0, 7, 65536⟩)).Mult (toF64 ⟨5, -6, 7, 8⟩) =
        (toF64 ⟨1, 2, -3, 4⟩).Mult ((toF64 ⟨-65536, 0, 7, 65536⟩).Mult (toF64 ⟨5, -6, 7, 8⟩)) :=
  have ha : (⟨1, 2, -3, 4⟩ : Quaternion ℤ).BoundedBy 65536 := by
    simp only [Quaternion.BoundedBy]
    norm_num
  have hb : (⟨-65536, 0, 7, 65536⟩ : Quaternion ℤ).BoundedBy 65536 := by
    simp only [Quaternion.BoundedBy]
    norm_num
  have hc : (⟨5, -6, 7, 8⟩ : Quaternion ℤ).BoundedBy 65536 := by
    simp only [Quaternion.BoundedBy]
    norm_num
  ⟨ha, hb, hc, mult_assoc_small_integers _ _ _ ha hb hc⟩

/-! ## Inverse, signum and the `Exp`/`Log` round trips in float64 -/

/-- C1 (code bug): in float64 the non-zero quaternion `a = (1e-200,0,0,0)` has
`Norm` 0, because `1e-200 * 1e-200` underflows; `a.Inv()` takes the guard
`norm == 0` and returns `(0,0,0,0)`, and `a.Mult(a.Inv())` and
`a.Inv().Mult(a)` are `(0,0,0,0)`, not `One()`. -/
theorem inv_underflow_in_float64 :
    (⟨F64.ofRat (1 / 10 ^ 200), 0, 0, 0⟩ : Quaternion F64) ≠ Null ∧
      (⟨F64.ofRat (1 / 10 ^ 200), 0, 0, 0⟩ : Quaternion F64).Norm = 0 ∧
      (⟨F64.ofRat (1 / 10 ^ 200), 0, 0, 0⟩ : Quaternion F64).Inv = some ⟨0, 0, 0, 0⟩ ∧
      (⟨F64.ofRat (1 / 10 ^ 200), 0, 0, 0⟩ : Quaternion F64).Inv.map
        (fun b => (⟨F64.ofRat (1 / 10 ^ 200), 0, 0, 0⟩ : Quaternion F64).Mult b) =
        some ⟨0, 0, 0, 0⟩ ∧
      (⟨F64.ofRat (1 / 10 ^ 200), 0, 0, 0⟩ : Quaternion F64).Inv.map
        (fun b => b.Mult ⟨F64.ofRat (1 / 10 ^ 200), 0, 0, 0⟩) = some ⟨0, 0, 0, 0⟩ ∧
      (⟨0, 0, 0, 0⟩ : Quaternion F64) ≠ One := by
  decide!

/-- C2 (code bug): in float64 the non-zero quaternion `a = (1e200,0,0,0)` has
`Norm` `+Inf`, because `1e200 * 1e200` overflows; `abs` is `+Inf`, every
component divided by it is 0, so `a.Signum()` is `(0,0,0,0)` and its `Norm` is
0, not 1. On `z = (-2,1,2,-4)` the `Norm` of `z.Signum()` is `1 + 2^-52`. -/
theorem signum_overflow_in_float64 :
    (⟨F64.ofRat (10 ^ 200), 0, 0, 0⟩ : Quaternion F64) ≠ Null ∧
      (⟨F64.ofRat (10 ^ 200), 0, 0, 0⟩ : Quaternion F64).Norm = F64.inf false ∧
      (⟨F64.ofRat (10 ^ 200), 0, 0, 0⟩ : Quaternion F64).Signum F64.sqrt =
        some ⟨0, 0, 0, 0⟩ ∧
      ((⟨F64.ofRat (10 ^ 200), 0, 0, 0⟩ : Quaternion F64).Signum F64.sqrt).map
        Quaternion.Norm = some 0 ∧
      (0 : F64) ≠ 1 ∧
      ((⟨F64.fin (-2), 1, F64.fin 2, F64.fin (-4)⟩ : Quaternion F64).Signum F64.sqrt).map
        Quaternion.Norm = some (F64.fin (1 + 1 / 2 ^ 52)) := by
  decide!

/-- C4 (code bug): in float64, at `a = (400,0,0,0)`, whose imaginary magnitude
is 0, `a.Exp()` is `(math.Exp(400),0,0,0)`; `Log` squares that value, the
square overflows, `abs` is `+Inf`, and `a.Exp().Log()` is
`(math.Log(+Inf),0,0,0) = (+Inf,0,0,0)`, not `a`. -/
theorem exp_log_overflow_in_float64 (Exp Log Sin Cos Acos : F64 → F64)
    (hE : Exp (F64.fin 400) * Exp (F64.fin 400) = F64.inf false)
    (hL : Log (F64.inf false) = F64.inf false) :
    (⟨F64.fin 400, 0, 0, 0⟩ : Quaternion F64).Exp Exp F64.sqrt Sin Cos =
        some ⟨Exp (F64.fin 400), 0, 0, 0⟩ ∧
      ((⟨F64.fin 400, 0, 0, 0⟩ : Quaternion F64).Exp Exp F64.sqrt Sin Cos).bind
        (Quaternion.Log Log F64.sqrt Acos) = some ⟨F64.inf false, 0, 0, 0⟩ ∧
      ((⟨F64.fin 400, 0, 0, 0⟩ : Quaternion F64).Exp Exp F64.sqrt Sin Cos).bind
        (Quaternion.Log Log F64.sqrt Acos) ≠ some ⟨F64.fin 400, 0, 0, 0⟩ := by
  have h1 : ((0 : F64) * 0 + 0 * 0 + 0 * 0) = 0 := by decide!
  have h2 : F64.sqrt (0 : F64) = 0 := by decide!
  have h3 : F64.sqrt (F64.inf false + 0) = F64.inf false := by decide!
  have hexp : (⟨F64.fin 400, 0, 0, 0⟩ : Quaternion F64).Exp Exp F64.sqrt Sin Cos =
      some ⟨Exp (F64.fin 400), 0, 0, 0⟩ := by
    simp only [Quaternion.Exp, h1, h2, if_true]
  have hlog : (⟨Exp (F64.fin 400), 0, 0, 0⟩ : Quaternion F64).Log Log F64.sqrt Acos =
      some ⟨F64.inf false, 0, 0, 0⟩ := by
    simp only [Quaternion.Log, h1, h2, hE, h3, hL, if_true]
  refine ⟨hexp, ?_, ?_⟩
  · rw [hexp, Option.some_bind, hlog]
  · rw [hexp, Option.some_bind, hlog]
    decide

theorem exp_log_overflow_in_float64_witness :
    (fun _ : F64 => F64.fin (2 ^ 600)) (F64.fin 400) *
        (fun _ : F64 => F64.fin (2 ^ 600)) (F64.fin 400) = F64.inf false ∧
      (fun x : F64 => x) (F64.inf false) = F64.inf false ∧
      ((⟨F64.fin 400, 0, 0, 0⟩ : Quaternion F64).Exp (fun _ => F64.fin (2 ^ 600)) F64.sqrt
        (fun x => x) (fun x => x)).bind (Quaternion.Log (fun x => x) F64.sqrt (fun x => x)) ≠
        some ⟨F64.fin 400, 0, 0, 0⟩ :=
  have hE : (fun _ : F64 => F64.fin (2 ^ 600)) (F64.fin 400) *
      (fun _ : F64 => F64.fin (2 ^ 600)) (F64.fin 400) = F64.inf false := by decide!
  ⟨hE, rfl, (exp_log_overflow_in_float64 (fun _ => F64.fin (2 ^ 600)) (fun x => x)
    (fun x => x) (fun x => x) (fun x => x) hE rfl).2.2⟩

/-- C5 (code bug): in float64, as in exact arithmetic, at the negative real
quaternion `q = (-1,0,0,0)` `Log` takes the guard `unit == 0` and returns
`(math.Log(1),0,0,0) = (0,0,0,0)`, and `Exp` of that is
`(math.Exp(0),0,0,0) = (1,0,0,0)`, not `q`: the sign of `q` is lost. -/
theorem log_exp_neg_one_in_float64 (Exp Log Sin Cos Acos : F64 → F64)
    (hL : Log 1 = 0) (hE : Exp 0 = 1) :
    (⟨F64.fin (-1), 0, 0, 0⟩ : Quaternion F64) ≠ Null ∧
      (⟨F64.fin (-1), 0, 0, 0⟩ : Quaternion F64).Log Log F64.sqrt Acos =
        some ⟨0, 0, 0, 0⟩ ∧
      ((⟨F64.fin (-1), 0, 0, 0⟩ : Quaternion F64).Log Log F64.sqrt Acos).bind
        (Quaternion.Exp Exp F64.sqrt Sin Cos) = some ⟨1, 0, 0, 0⟩ ∧
      ((⟨F64.fin (-1), 0, 0, 0⟩ : Quaternion F64).Log Log F64.sqrt Acos).bind
        (Quaternion.Exp Exp F64.sqrt Sin Cos) ≠ some ⟨F64.fin (-1), 0, 0, 0⟩ := by
  have h1 : ((0 : F64) * 0 + 0 * 0 + 0 * 0) = 0 := by decide!
  have h2 : F64.sqrt (0 : F64) = 0 := by decide!
  have h3 : F64.sqrt (F64.fin (-1) * F64.fin (-1) + 0) = 1 := by decide!
  have hlog : (⟨F64.fin (-1), 0, 0, 0⟩ : Quaternion F64).Log Log F64.sqrt Acos =
      some ⟨0, 0, 0, 0⟩ := by
    simp only [Quaternion.Log, h1, h2, h3, hL, if_true]
  have hexp : (⟨0, 0, 0, 0⟩ : Quaternion F64).Exp Exp F64.sqrt Sin Cos =
      some ⟨1, 0, 0, 0⟩ := by
    simp only [Quaternion.Exp, h1, h2, hE, if_true]
  refine ⟨by decide!, hlog, ?_, ?_⟩
  · rw [hlog, Option.some_bind, hexp]
  · rw [hlog, Option.some_bind, hexp]
    decide!

theorem log_exp_neg_one_in_float64_witness :
    (fun _ : F64 => (0 : F64)) 1 = 0 ∧ (fun _ : F64 => (1 : F64)) 0 = 1 ∧
      ((⟨F64.fin (-1), 0, 0, 0⟩ : Quaternion F64).Log (fun _ => 0) F64.sqrt (fun x => x)).bind
        (Quaternion.Exp (fun _ => 1) F64.sqrt (fun x => x) (fun x => x)) = some ⟨1, 0, 0, 0⟩ :=
  ⟨rfl, rfl, (log_exp_neg_one_in_float64 (fun _ => 1) (fun _ => 0) (fun x => x)
    (fun x => x) (fun x => x) rfl rfl).2.2.1⟩

/-- C6 (code bug): in float64, at `q = (1e8,1,0,0)`, whose imaginary part is
not zero, `1e8*1e8 + 1` rounds to `1e16`, so `abs` is `1e8`, `r/abs` is 1 and
`math.Acos(1)` is 0: `q.Log()` is `(math.Log(1e8),0,0,0)` and `q.Log().Exp()`
is `(math.Exp(math.Log(1e8)),0,0,0)`; the imaginary part of `q` is lost. -/
theorem log_exp_absorbed_in_float64 (Exp Log Sin Cos Acos : F64 → F64) (hA : Acos 1 = 0) :
    (⟨F64.fin 100000000, 1, 0, 0⟩ : Quaternion F64).Img ≠ Null ∧
      (⟨F64.fin 100000000, 1, 0, 0⟩ : Quaternion F64).Log Log F64.sqrt Acos =
        some ⟨Log (F64.fin 100000000), 0, 0, 0⟩ ∧
      ((⟨F64.fin 100000000, 1, 0, 0⟩ : Quaternion F64).Log Log F64.sqrt Acos).bind
        (Quaternion.Exp Exp F64.sqrt Sin Cos) =
        some ⟨Exp (Log (F64.fin 100000000)), 0, 0, 0⟩ ∧
      ((⟨F64.fin 100000000, 1, 0, 0⟩ : Quaternion F64).Log Log F64.sqrt Acos).bind
        (Quaternion.Exp Exp F64.sqrt Sin Cos) ≠ some ⟨F64.fin 100000000, 1, 0, 0⟩ := by
  have h1 : ((0 : F64) * 0 + 0 * 0 + 0 * 0) = 0 := by decide!
  have h2 : F64.sqrt (0 : F64) = 0 := by decide!
  have h3 : ((1 : F64) * 1 + 0 + 0) = 1 := by decide!
  have h4 : F64.sqrt (1 : F64) = 1 := by decide!
  have h5 : F64.sqrt (F64.fin 100000000 * F64.fin 100000000 + 1) = F64.fin 100000000 := by
    decide!
  have h6 : (1 : F64) ≠ 0 := by decide!
  have h7 : F64.fin 100000000 ≠ 0 := by decide!
  have h8 : F64.fin 100000000 / F64.fin 100000000 = 1 := by decide!
  have h9 : (0 : F64) / 1 = 0 := by decide!
  have h10 : (0 : F64) * 1 = 0 := by decide!
  have h11 : (0 : F64) * 0 = 0 := by decide!
  have hlog : (⟨F64.fin 100000000, 1, 0, 0⟩ : Quaternion F64).Log Log F64.sqrt Acos =
      some ⟨Log (F64.fin 100000000), 0, 0, 0⟩ := by
    simp only [Quaternion.Log, fdiv, h3, h4, h5, h6, h7, h8, h9, h10, h11, hA, if_false,
      Option.some_bind]
  have hexp : (⟨Log (F64.fin 100000000), 0, 0, 0⟩ : Quaternion F64).Exp Exp F64.sqrt Sin Cos =
      some ⟨Exp (Log (F64.fin 100000000)), 0, 0, 0⟩ := by
    simp only [Quaternion.Exp, h1, h2, if_true]
  refine ⟨by decide!, hlog, ?_, ?_⟩
  · rw [hlog, Option.some_bind, hexp]
  · rw [hlog, Option.some_bind, hexp]
    simp only [ne_eq, Option.some.injEq, Quaternion.mk.injEq, not_and]
    intro _ h
    exact absurd h (by decide!)

theorem log_exp_absorbed_in_float64_witness :
    (fun _ : F64 => (0 : F64)) 1 = 0 ∧
      ((⟨F64.fin 100000000, 1, 0, 0⟩ : Quaternion F64).Log (fun x => x) F64.sqrt
        (fun _ => 0)).bind (Quaternion.Exp (fun x => x) F64.sqrt (fun x => x) (fun x => x)) ≠
        some ⟨F64.fin 100000000, 1, 0, 0⟩ :=
  ⟨rfl, (log_exp_absorbed_in_float64 (fun x => x) (fun x => x) (fun x => x) (fun x => x)
    (fun _ => 0) rfl).2.2.2⟩

/-! ## `Log`, `Norm` and `Abs` in float64 -/

/-- The imaginary square sum of a float64 quaternion is zero, positive, `+Inf`
or NaN. -/
theorem imgnorm_nonNeg (a : Quaternion F64) :
    (a.Qi * a.Qi + a.Qj * a.Qj + a.Qk * a.Qk).NonNeg :=
  ((F64.mul_self_nonNeg a.Qi).add_nonNeg (F64.mul_self_nonNeg a.Qj)).add_nonNeg
    (F64.mul_self_nonNeg a.Qk)

/-- In float64, too, a non-zero `unit` forces a non-zero `abs` in `Log`. -/
theorem abs_ne_zero_of_unit_ne_zero_float64 (a : Quaternion F64)
    (h : F64.sqrt (a.Qi * a.Qi + a.Qj * a.Qj + a.Qk * a.Qk) ≠ 0) :
    F64.sqrt (a.Qr * a.Qr + (a.Qi * a.Qi + a.Qj * a.Qj + a.Qk * a.Qk)) ≠ 0 := by
  have hN := imgnorm_nonNeg a
  have hN0 : a.Qi * a.Qi + a.Qj * a.Qj + a.Qk * a.Qk ≠ F64.fin 0 := by
    intro h0
    apply h
    rw [h0]
    decide!
  exact F64.sqrt_ne_zero ((F64.mul_self_nonNeg a.Qr).add_nonNeg hN)
    ((F64.mul_self_nonNeg a.Qr).add_ne_zero hN hN0)

/-- The branch of `Log` taken in float64 when `unit` is not zero. -/
theorem log_of_unit_ne_zero_float64 (Log Acos : F64 → F64) (a : Quaternion F64)
    (hu : F64.sqrt (a.Qi * a.Qi + a.Qj * a.Qj + a.Qk * a.Qk) ≠ 0) :
    a.Log Log F64.sqrt Acos =
      some ⟨Log (F64.sqrt (a.Qr * a.Qr + (a.Qi * a.Qi + a.Qj * a.Qj + a.Qk * a.Qk))),
        Acos (a.Qr / F64.sqrt (a.Qr * a.Qr + (a.Qi * a.Qi + a.Qj * a.Qj + a.Qk * a.Qk))) /
          F64.sqrt (a.Qi * a.Qi + a.Qj * a.Qj + a.Qk * a.Qk) * a.Qi,
        Acos (a.Qr / F64.sqrt (a.Qr * a.Qr + (a.Qi * a.Qi + a.Qj * a.Qj + a.Qk * a.Qk))) /
          F64.sqrt (a.Qi * a.Qi + a.Qj * a.Qj + a.Qk * a.Qk) * a.Qj,
        Acos (a.Qr / F64.sqrt (a.Qr * a.Qr + (a.Qi * a.Qi + a.Qj * a.Qj + a.Qk * a.Qk))) /
          F64.sqrt (a.Qi * a.Qi + a.Qj * a.Qj + a.Qk * a.Qk) * a.Qk⟩ := by
  have hA := abs_ne_zero_of_unit_ne_zero_float64 a hu
  simp only [Quaternion.Log, fdiv, if_neg hu, if_neg hA, Option.some_bind]

/-- C12 as stated fails in float64: `Abs` adds the four squares from the left,
`Log` adds the three imaginary squares first. At
`a = (8.022229013416769e153, 3.440477975797389e153, 5.2742317362187e153,
8.703950024744075e153)` the sum in `Abs` overflows, so `a.Abs()` is `+Inf`,
while the sum in `Log` is the largest float64, its `abs` is
`(2^53 - 1) * 2^459`, and the real component of `a.Log()` is `math.Log` of
that value, not of `a.Abs()`. -/
theorem log_abs_differs_from_abs_in_float64 :
    (⟨F64.fin (5389234061866401 * 2 ^ 459), F64.fin (1155635239611003 * 2 ^ 460),
        F64.fin (3543163536651569 * 2 ^ 459), F64.fin (5847205791268619 * 2 ^ 459)⟩ :
        Quaternion F64).Abs F64.sqrt = F64.inf false ∧
      (∀ Log Acos : F64 → F64,
        ((⟨F64.fin (5389234061866401 * 2 ^ 459), F64.fin (1155635239611003 * 2 ^ 460),
        F64.fin (3543163536651569 * 2 ^ 459), F64.fin (5847205791268619 * 2 ^ 459)⟩ :
        Quaternion F64).Log Log F64.sqrt Acos).map Quaternion.Qr =
          some (Log (F64.fin (9007199254740991 * 2 ^ 459)))) ∧
      ¬ ∀ Log Acos : F64 → F64,
        ((⟨F64.fin (5389234061866401 * 2 ^ 459), F64.fin (1155635239611003 * 2 ^ 460),
        F64.fin (3543163536651569 * 2 ^ 459), F64.fin (5847205791268619 * 2 ^ 459)⟩ :
        Quaternion F64).Log Log F64.sqrt Acos).map Quaternion.Qr =
          some (Log ((⟨F64.fin (5389234061866401 * 2 ^ 459), F64.fin (1155635239611003 * 2 ^ 460),
        F64.fin (3543163536651569 * 2 ^ 459), F64.fin (5847205791268619 * 2 ^ 459)⟩ :
        Quaternion F64).Abs F64.sqrt)) := by
  have habs : (⟨F64.fin (5389234061866401 * 2 ^ 459), F64.fin (1155635239611003 * 2 ^ 460),
        F64.fin (3543163536651569 * 2 ^ 459), F64.fin (5847205791268619 * 2 ^ 459)⟩ :
        Quaternion F64).Abs F64.sqrt = F64.inf false := by decide!
  have hu : F64.sqrt ((⟨F64.fin (5389234061866401 * 2 ^ 459), F64.fin (1155635239611003 * 2 ^ 460),
        F64.fin (3543163536651569 * 2 ^ 459), F64.fin (5847205791268619 * 2 ^ 459)⟩ :
        Quaternion F64).Qi * (⟨F64.fin (5389234061866401 * 2 ^ 459), F64.fin (1155635239611003 * 2 ^ 460),
        F64.fin (3543163536651569 * 2 ^ 459), F64.fin (5847205791268619 * 2 ^ 459)⟩ :
        Quaternion F64).Qi + (⟨F64.fin (5389234061866401 * 2 ^ 459), F64.fin (1155635239611003 * 2 ^ 460),
        F64.fin (3543163536651569 * 2 ^ 459), F64.fin (5847205791268619 * 2 ^ 459)⟩ :
        Quaternion F64).Qj * (⟨F64.fin (5389234061866401 * 2 ^ 459), F64.fin (1155635239611003 * 2 ^ 460),
        F64.fin (3543163536651569 * 2 ^ 459), F64.fin (5847205791268619 * 2 ^ 459)⟩ :
        Quaternion F64).Qj + (⟨F64.fin (5389234061866401 * 2 ^ 459), F64.fin (1155635239611003 * 2 ^ 460),
        F64.fin (3543163536651569 * 2 ^ 459), F64.fin (5847205791268619 * 2 ^ 459)⟩ :
        Quaternion F64).Qk * (⟨F64.fin (5389234061866401 * 2 ^ 459), F64.fin (1155635239611003 * 2 ^ 460),
        F64.fin (3543163536651569 * 2 ^ 459), F64.fin (5847205791268619 * 2 ^ 459)⟩ :
        Quaternion F64).Qk) ≠ 0 := by decide!
  have hA : F64.sqrt ((⟨F64.fin (5389234061866401 * 2 ^ 459), F64.fin (1155635239611003 * 2 ^ 460),
        F64.fin (3543163536651569 * 2 ^ 459), F64.fin (5847205791268619 * 2 ^ 459)⟩ :
        Quaternion F64).Qr * (⟨F64.fin (5389234061866401 * 2 ^ 459), F64.fin (1155635239611003 * 2 ^ 460),
        F64.fin (3543163536651569 * 2 ^ 459), F64.fin (5847205791268619 * 2 ^ 459)⟩ :
        Quaternion F64).Qr + ((⟨F64.fin (5389234061866401 * 2 ^ 459), F64.fin (1155635239611003 * 2 ^ 460),
        F64.fin (3543163536651569 * 2 ^ 459), F64.fin (5847205791268619 * 2 ^ 459)⟩ :
        Quaternion F64).Qi * (⟨F64.fin (5389234061866401 * 2 ^ 459), F64.fin (1155635239611003 * 2 ^ 460),
        F64.fin (3543163536651569 * 2 ^ 459), F64.fin (5847205791268619 * 2 ^ 459)⟩ :
        Quaternion F64).Qi + (⟨F64.fin (5389234061866401 * 2 ^ 459), F64.fin (1155635239611003 * 2 ^ 460),
        F64.fin (3543163536651569 * 2 ^ 459), F64.fin (5847205791268619 * 2 ^ 459)⟩ :
        Quaternion F64).Qj * (⟨F64.fin (5389234061866401 * 2 ^ 459), F64.fin (1155635239611003 * 2 ^ 460),
        F64.fin (3543163536651569 * 2 ^ 459), F64.fin (5847205791268619 * 2 ^ 459)⟩ :
        Quaternion F64).Qj + (⟨F64.fin (5389234061866401 * 2 ^ 459), F64.fin (1155635239611003 * 2 ^ 460),
        F64.fin (3543163536651569 * 2 ^ 459), F64.fin (5847205791268619 * 2 ^ 459)⟩ :
        Quaternion F64).Qk * (⟨F64.fin (5389234061866401 * 2 ^ 459), F64.fin (1155635239611003 * 2 ^ 460),
        F64.fin (3543163536651569 * 2 ^ 459), F64.fin (5847205791268619 * 2 ^ 459)⟩ :
        Quaternion F64).Qk)) =
      F64.fin (9007199254740991 * 2 ^ 459) := by decide!
  have hlog : ∀ Log Acos : F64 → F64,
      ((⟨F64.fin (5389234061866401 * 2 ^ 459), F64.fin (1155635239611003 * 2 ^ 460),
        F64.fin (3543163536651569 * 2 ^ 459), F64.fin (5847205791268619 * 2 ^ 459)⟩ :
        Quaternion F64).Log Log F64.sqrt Acos).map Quaternion.Qr =
        some (Log (F64.fin (9007199254740991 * 2 ^ 459))) := by
    intro Log Acos
    rw [log_of_unit_ne_zero_float64 Log Acos _ hu, Option.map_some', hA]
  refine ⟨habs, hlog, fun hall => ?_⟩
  have h1 := hall (fun x => x) (fun x => x)
  rw [hlog (fun x => x) (fun x => x), habs] at h1
  exact absurd h1 (by decide!)

/-- C12, as amended: for every float64 quaternion `a = (r,i,j,k)`, with
`u = math.Sqrt(i*i + j*j + k*k)` and `abs = math.Sqrt(r*r + (i*i + j*j + k*k))`
as `Log` computes it: if `u = 0` then `a.Log()` returns `(math.Log(abs),0,0,0)`;
otherwise it returns `(math.Log(abs), g*i, g*j, g*k)` with
`g = math.Acos(r/abs)/u`, and neither divisor is zero; whatever `math.Log` and
`math.Acos` return. -/
theorem log_closed_form_float64 (Log Acos : F64 → F64) (a : Quaternion F64) :
    a.Log Log F64.sqrt Acos =
      if F64.sqrt (a.Qi * a.Qi + a.Qj * a.Qj + a.Qk * a.Qk) = 0 then
        some ⟨Log (F64.sqrt (a.Qr * a.Qr + (a.Qi * a.Qi + a.Qj * a.Qj + a.Qk * a.Qk))),
          0, 0, 0⟩
      else
        some ⟨Log (F64.sqrt (a.Qr * a.Qr + (a.Qi * a.Qi + a.Qj * a.Qj + a.Qk * a.Qk))),
          Acos (a.Qr / F64.sqrt (a.Qr * a.Qr + (a.Qi * a.Qi + a.Qj * a.Qj + a.Qk * a.Qk))) /
            F64.sqrt (a.Qi * a.Qi + a.Qj * a.Qj + a.Qk * a.Qk) * a.Qi,
          Acos (a.Qr / F64.sqrt (a.Qr * a.Qr + (a.Qi * a.Qi + a.Qj * a.Qj + a.Qk * a.Qk))) /
            F64.sqrt (a.Qi * a.Qi + a.Qj * a.Qj + a.Qk * a.Qk) * a.Qj,
          Acos (a.Qr / F64.sqrt (a.Qr * a.Qr + (a.Qi * a.Qi + a.Qj * a.Qj + a.Qk * a.Qk))) /
            F64.sqrt (a.Qi * a.Qi + a.Qj * a.Qj + a.Qk * a.Qk) * a.Qk⟩ := by
  by_cases hu : F64.sqrt (a.Qi * a.Qi + a.Qj * a.Qj + a.Qk * a.Qk) = 0
  · rw [if_pos hu]
    simp only [Quaternion.Log, if_pos hu]
  · rw [if_neg hu]
    exact log_of_unit_ne_zero_float64 Log Acos a hu

/-- C13 as stated fails in float64: for `y = (-3,4,0,2)`, `y.Norm()` is 29,
`y.Abs()` is the float64 nearest to the square root of 29, and
`y.Abs() * y.Abs()` is `29 - 2^-48`, not `y.Norm()`. -/
theorem abs_sq_differs_from_norm_in_float64 :
    (⟨F64.fin (-3), F64.fin 4, 0, F64.fin 2⟩ : Quaternion F64).Norm = F64.fin 29 ∧
      (⟨F64.fin (-3), F64.fin 4, 0, F64.fin 2⟩ : Quaternion F64).Abs F64.sqrt = F64.fin (6063156554684915 / 2 ^ 50) ∧
      (⟨F64.fin (-3), F64.fin 4, 0, F64.fin 2⟩ : Quaternion F64).Abs F64.sqrt * (⟨F64.fin (-3), F64.fin 4, 0, F64.fin 2⟩ : Quaternion F64).Abs F64.sqrt = F64.fin (29 - 1 / 2 ^ 48) ∧
      (⟨F64.fin (-3), F64.fin 4, 0, F64.fin 2⟩ : Quaternion F64).Abs F64.sqrt * (⟨F64.fin (-3), F64.fin 4, 0, F64.fin 2⟩ : Quaternion F64).Abs F64.sqrt ≠ (⟨F64.fin (-3), F64.fin 4, 0, F64.fin 2⟩ : Quaternion F64).Norm := by
  decide!

/-- C13, as amended: for every float64 quaternion `a`, `a.Norm()` is the sum
of the squares of the four components, `a.Abs()` is `math.Sqrt` of that sum,
hence of `a.Norm()`, and is zero, positive, `+Inf` or NaN, never negative;
`y = (-3,4,0,2)` has `Norm` 29 and `z = (-2,1,2,-4)` has `Abs` 5, and for `z`,
whose root is exact, `z.Abs() * z.Abs()` is `z.Norm()`. -/
theorem norm_abs_float64 :
    (∀ a : Quaternion F64,
      a.Norm = a.Qr * a.Qr + a.Qi * a.Qi + a.Qj * a.Qj + a.Qk * a.Qk ∧
      a.Abs F64.sqrt = F64.sqrt a.Norm ∧
      (a.Abs F64.sqrt).NonNeg) ∧
    (⟨F64.fin (-3), F64.fin 4, 0, F64.fin 2⟩ : Quaternion F64).Norm = F64.fin 29 ∧
    (⟨F64.fin (-2), 1, F64.fin 2, F64.fin (-4)⟩ : Quaternion F64).Abs F64.sqrt = F64.fin 5 ∧
    (⟨F64.fin (-2), 1, F64.fin 2, F64.fin (-4)⟩ : Quaternion F64).Abs F64.sqrt * (⟨F64.fin (-2), 1, F64.fin 2, F64.fin (-4)⟩ : Quaternion F64).Abs F64.sqrt = (⟨F64.fin (-2), 1, F64.fin 2, F64.fin (-4)⟩ : Quaternion F64).Norm := by
  refine ⟨fun a => ⟨rfl, rfl, F64.sqrt_nonNeg _⟩, ?_, ?_, ?_⟩ <;> decide!

end quaternion
